import Mathlib

/-!
A verification development for the cxdb core: the filesystem snapshot
engine, the roots index, the path resolver, the error classifier of the
reconnecting client, and the server-error decoding of the client, each
shallowly embedded from the Rust sources and checked against the
specification's claims.
-/

namespace Cxdb

/-- Bytes are modelled as natural numbers; writers always produce values
below 256 and readers reduce modulo 256 exactly where the source does. -/
abbrev Bytes := List Nat

/-- Little-endian value of a byte list (each byte taken mod 256), as the
`byteorder` readers compute it. -/
def leNat : Bytes → Nat
  | [] => 0
  | b :: bs => b % 256 + 256 * leNat bs

/-- The 4 little-endian bytes of a 32-bit value, as `write_u32::<LittleEndian>`. -/
def u32leBytes (n : Nat) : Bytes :=
  [n % 256, n / 256 % 256, n / 2 ^ 16 % 256, n / 2 ^ 24 % 256]

/-- The 8 little-endian bytes of a 64-bit value, as `write_u64::<LittleEndian>`. -/
def u64leBytes (n : Nat) : Bytes :=
  [n % 256, n / 256 % 256, n / 2 ^ 16 % 256, n / 2 ^ 24 % 256,
   n / 2 ^ 32 % 256, n / 2 ^ 40 % 256, n / 2 ^ 48 % 256, n / 2 ^ 56 % 256]

/-- One shift-and-conditionally-xor step of the bit-reflected CRC-32
(IEEE polynomial 0xEDB88320), as `crc32fast` computes it. -/
def crc32Step (crc : Nat) : Nat :=
  if crc % 2 = 1 then Nat.xor (crc / 2) 0xEDB88320 else crc / 2

/-- Fold one input byte into the running CRC-32 state. -/
def crc32Byte (crc b : Nat) : Nat :=
  crc32Step^[8] (Nat.xor crc (b % 256))

/-- CRC-32 (IEEE, reflected, init and xorout 0xFFFFFFFF) of a byte
sequence; the checksum `crc32fast::Hasher` produces. -/
def crc32 (bs : Bytes) : Nat :=
  Nat.xor (bs.foldl crc32Byte 0xFFFFFFFF) 0xFFFFFFFF

/-! ## FsRootsIndex (server/src/fs_store/mod.rs)

The on-disk `roots.idx` file is a byte list; the in-memory map is an
association list in which each `turn_id` occurs at most once, mirroring
the `HashMap` (`insert` replaces the value of an existing key). -/

/-- `HashMap::get` over the association-list model of a hash map. -/
def lookupKey {κ β : Type} [DecidableEq κ] (k : κ) : List (κ × β) → Option β
  | [] => none
  | (a, b) :: l => if a = k then some b else lookupKey k l

/-- `HashMap::insert`: replace the value of an existing key, else add the
binding. -/
def mapInsert {β : Type} (m : List (Nat × β)) (k : Nat) (v : β) : List (Nat × β) :=
  if m.any (fun p => p.1 = k) then
    m.map (fun p => if p.1 = k then (k, v) else p)
  else
    m ++ [(k, v)]

/-- `FsRootsIndex::compute_crc`: CRC-32 over the 8 turn-id bytes followed
by the 32 hash bytes. -/
def computeCrc (turnId : Nat) (fsRootHash : Bytes) : Nat :=
  crc32 (u64leBytes turnId ++ fsRootHash)

/-- The loading loop of `FsRootsIndex::load`. Input: remaining file bytes.
Output: the populated map and the bytes that survive on disk (the
`set_len(start)` truncation drops the bad record and everything after it;
a tail shorter than 8 bytes makes `read_u64` fail with `UnexpectedEof`,
which breaks out of the loop without truncating). -/
def loadGo (m : List (Nat × Bytes)) (bs : Bytes) : List (Nat × Bytes) × Bytes :=
  if bs.length < 8 then (m, bs)
  else if bs.length < 44 then (m, [])
  else
    let turnId := leNat (bs.take 8)
    let fsRootHash := (bs.drop 8).take 32
    let crc := leNat ((bs.drop 40).take 4)
    if crc ≠ computeCrc turnId fsRootHash then (m, [])
    else
      let r := loadGo (mapInsert m turnId fsRootHash) (bs.drop 44)
      (r.1, bs.take 44 ++ r.2)
termination_by bs.length
decreasing_by
  simp only [List.length_drop]
  omega

/-- `FsRootsIndex::load` applied to the whole file (the index starts from
an empty map and the cursor at offset 0). -/
def fsRootsLoad (fileBytes : Bytes) : List (Nat × Bytes) × Bytes :=
  loadGo [] fileBytes

/-- The in-memory index together with the backing file bytes. -/
structure FsRootsIndex where
  roots : List (Nat × Bytes)
  fileBytes : Bytes

/-- `FsRootsIndex::open` on an existing file: load, keeping the surviving
byte prefix on disk. -/
def fsRootsOpen (fileBytes : Bytes) : FsRootsIndex :=
  { roots := (fsRootsLoad fileBytes).1, fileBytes := (fsRootsLoad fileBytes).2 }

/-- The 44-byte record `attach` appends: turn id, hash, CRC-32 of the
first 40 bytes. -/
def encodeRecord (turnId : Nat) (fsRootHash : Bytes) : Bytes :=
  u64leBytes turnId ++ fsRootHash ++ u32leBytes (computeCrc turnId fsRootHash)

/-- `FsRootsIndex::attach`: append the record and update the map. -/
def FsRootsIndex.attach (idx : FsRootsIndex) (turnId : Nat) (fsRootHash : Bytes) :
    FsRootsIndex :=
  { roots := mapInsert idx.roots turnId fsRootHash,
    fileBytes := idx.fileBytes ++ encodeRecord turnId fsRootHash }

/-- `FsRootsIndex::get`: the direct mapping, if any. -/
def FsRootsIndex.get (idx : FsRootsIndex) (turnId : Nat) : Option Bytes :=
  lookupKey turnId idx.roots

/-- Encoding of a list of records, in file order. -/
def encodeRecords (recs : List (Nat × Bytes)) : Bytes :=
  (recs.map (fun r => encodeRecord r.1 r.2)).flatten

/-- Last-write-wins reading of a record list: the hash of the last record
for the given turn id. -/
def lastHash (recs : List (Nat × Bytes)) (turnId : Nat) : Option Bytes :=
  lookupKey turnId recs.reverse

/-- A record list is well formed when every turn id fits in 64 bits and
every hash is exactly 32 bytes. -/
def WfRecords (recs : List (Nat × Bytes)) : Prop :=
  ∀ r ∈ recs, r.1 < 2 ^ 64 ∧ r.2.length = 32

/-- A byte tail at which loading stops: either the fixed 44 bytes cannot
be fully read, or the stored CRC does not match the recomputed one. -/
def BadTail (tail : Bytes) : Prop :=
  tail ≠ [] ∧
    (tail.length < 44 ∨
      leNat ((tail.drop 40).take 4) ≠
        computeCrc (leNat (tail.take 8)) ((tail.drop 8).take 32))

/-- Record folding used by the loader: later records overwrite earlier
ones for the same turn id. -/
def insertAll (m : List (Nat × Bytes)) (recs : List (Nat × Bytes)) :
    List (Nat × Bytes) :=
  recs.foldl (fun acc r => mapInsert acc r.1 r.2) m

/-! ## Turn inheritance (server/src/fs_store/mod.rs, `get_inherited`)

The turn store is an external collaborator; the spec fixes its interface
as `get_turn(turn_id) → {turn_id, parent_turn_id, …}`, fallible. We model
it as a function into `Option Turn` (`none` is the error case). The
source's `while` loop can diverge on a cyclic parent chain, so the
embedding takes explicit fuel; every claim is stated for sufficient fuel. -/

/-- The two turn fields the core reads. -/
structure Turn where
  turnId : Nat
  parentTurnId : Nat

/-- The parent-chain walk of `FsRootsIndex::get_inherited` (the `while
current != 0` loop). -/
def walkParents (roots : List (Nat × Bytes)) (store : Nat → Option Turn) :
    Nat → Nat → Option Bytes
  | _, 0 => none
  | current, fuel + 1 =>
    if current = 0 then none
    else
      match store current with
      | some turn =>
        match lookupKey turn.turnId roots with
        | some h => some h
        | none => walkParents roots store turn.parentTurnId fuel
      | none => none

/-- `FsRootsIndex::get_inherited`: direct check first, then the parent
walk. -/
def getInherited (roots : List (Nat × Bytes)) (store : Nat → Option Turn)
    (turnId : Nat) (fuel : Nat) : Option Bytes :=
  match lookupKey turnId roots with
  | some h => some h
  | none => walkParents roots store turnId fuel

/-! ## Client error type and connection-error classification
(clients/rust/src/reconnect.rs)

Modelled from the spec: the `Error` enum lives in `error.rs`, which is
not among the sources here; §7 of the spec fixes its kinds: `Io`,
`Tls(msg)`, `InvalidResponse(msg)`, `Server{code, detail}`, `Timeout`,
`Cancelled`, `ClientClosed`, `QueueFull`. An `Io` error carries a
`std::io::ErrorKind` and a display message; we model the seven kinds the
classifier names plus an opaque remainder. -/

/-- `std::io::ErrorKind`, restricted to the variants `is_connection_error`
distinguishes; `otherKind` stands for every remaining variant. -/
inductive IoErrorKind where
  | connectionReset
  | connectionAborted
  | brokenPipe
  | connectionRefused
  | timedOut
  | unexpectedEof
  | notConnected
  | otherKind (name : String)
deriving DecidableEq

/-- The client error enum (modelled from the spec, §7). -/
inductive Error where
  | Io (kind : IoErrorKind) (msg : String)
  | Tls (msg : String)
  | InvalidResponse (msg : String)
  | Server (code : Nat) (detail : String)
  | Timeout
  | Cancelled
  | ClientClosed
  | QueueFull
deriving DecidableEq

/-- ASCII lowercasing of a string, modelling `str::to_lowercase` (the
patterns searched for are all ASCII). -/
def toLowerStr (s : String) : String :=
  String.mk (s.toList.map Char.toLower)

/-- Is `pat` a prefix of `s`? (character-wise) -/
def charsPrefixOf : List Char → List Char → Bool
  | [], _ => true
  | _ :: _, [] => false
  | c :: cs, d :: ds => c == d && charsPrefixOf cs ds

/-- Does `s` contain `pat` as a contiguous substring?
(models `str::contains`) -/
def charsContain (s pat : List Char) : Bool :=
  charsPrefixOf pat s ||
    match s with
    | [] => false
    | _ :: rest => charsContain rest pat

/-- `str::contains` on strings. -/
def strContains (hay pat : String) : Bool :=
  charsContain hay.toList pat.toList

/-- The eight lowercase substrings of `contains_connection_pattern`. -/
def connectionPatterns : List String :=
  ["connection reset", "connection refused", "broken pipe",
   "use of closed network connection", "network is unreachable",
   "no route to host", "connection timed out", "i/o timeout"]

/-- `contains_connection_pattern`: lowercase the message, then look for
any of the eight patterns. -/
def containsConnectionPattern (msg : String) : Bool :=
  connectionPatterns.any (fun p => strContains (toLowerStr msg) p)

/-- `is_connection_error` (reconnect.rs). The source's final catch-all
arm is unreachable over the spec's eight error kinds, all matched
explicitly here. For an `Io` error, `io_err.to_string()` is the error's
display message, carried in the model's `msg` field. -/
def isConnectionError : Error → Bool
  | .ClientClosed => false
  | .Server _ _ => false
  | .Timeout => false
  | .Cancelled => false
  | .QueueFull => false
  | .Io kind msg =>
    match kind with
    | .connectionReset => true
    | .connectionAborted => true
    | .brokenPipe => true
    | .connectionRefused => true
    | .timedOut => true
    | .unexpectedEof => true
    | .notConnected => true
    | .otherKind _ => containsConnectionPattern msg
  | .Tls msg => containsConnectionPattern msg
  | .InvalidResponse msg => containsConnectionPattern msg

/-- The seven connection-flavoured `ErrorKind`s of the first match arm. -/
def connectionKinds : List IoErrorKind :=
  [.connectionReset, .connectionAborted, .brokenPipe, .connectionRefused,
   .timedOut, .unexpectedEof, .notConnected]

/-! ## Server-error decoding (clients/rust/src/client.rs) -/

/-- Lossy UTF-8 decoding of a byte list. Modelled from the spec:
`String::from_utf8_lossy` is standard-library behaviour; the model is
exact on ASCII content (the only content the claims exercise) and maps
any other byte to U+FFFD. -/
def utf8Lossy (bs : Bytes) : String :=
  String.mk (bs.map (fun b => if b < 128 then Char.ofNat b else '�'))

/-- `parse_server_error` (client.rs): decode `{code:u32, detail_len:u32,
detail:utf8[detail_len]}`, tolerating malformed payloads. -/
def parseServerError (payload : Bytes) : Error :=
  if payload.length < 8 then .Server 0 "unknown error"
  else
    let code := leNat (payload.take 4)
    let detailLen := leNat ((payload.drop 4).take 4)
    let detail :=
      if 8 + detailLen ≤ payload.length then
        utf8Lossy ((payload.drop 8).take detailLen)
      else ""
    .Server code detail

/-- A decoded frame: header fields and payload. -/
structure Frame where
  msgType : Nat
  flags : Nat
  reqId : Nat
  payload : Bytes

/-- Modelled from the spec: the numeric value of `MSG_ERROR` is assigned
in `protocol.rs`, which is not among the sources; nothing below depends
on it beyond equality with itself. -/
def MSG_ERROR : Nat := 0xFFFF

/-- The response handling of `Client::send_request_with_flags` after a
frame has been read back: an error frame fails the request with the
decoded server error, any other frame is returned. -/
def sendRequestHandleResponse (frame : Frame) : Except Error Frame :=
  if frame.msgType = MSG_ERROR then .error (parseServerError frame.payload)
  else .ok frame

/-! ## Path resolution over hashed trees (server/src/fs_store/mod.rs)

The blob store is an external collaborator (`get(hash) → bytes`,
fallible), modelled as a function. The msgpack byte decoder is the
external `rmpv` crate; we model its value tree and take the byte-level
reader `read_value` as a parameter, while `parse_tree_entry` and
`parse_tree_entries` are embedded from the source. -/

/-- Store errors (modelled from the spec: `error.rs` is not among the
sources; the kinds used by the path resolver are fixed by the spec's
error strings). -/
inductive StoreError where
  | NotFound (msg : String)
  | InvalidInput (msg : String)
  | Corrupt (msg : String)
  | IoErr (msg : String)
deriving DecidableEq

/-- The `rmpv::Value` variants `parse_tree_entry` inspects; `other`
stands for every remaining variant (matched by the catch-alls). -/
inductive MsgValue where
  | int (n : Int)
  | str (s : String)
  | bin (bs : List Nat)
  | arr (vs : List MsgValue)
  | map (kvs : List (MsgValue × MsgValue))
  | other

/-- `rmpv::Integer::as_u64`. -/
def intAsU64 (n : Int) : Option Nat :=
  if 0 ≤ n ∧ n < 2 ^ 64 then some n.toNat else none

/-- `str::parse::<u64>().ok()` on a decimal key string. -/
def parseU64Str (s : String) : Option Nat :=
  match s.toNat? with
  | some n => if n < 2 ^ 64 then some n else none
  | none => none

/-- A server-side tree entry (fs_store/mod.rs `TreeEntry`): the hash is a
raw byte vector, validated separately by `hash_array`. -/
structure STreeEntry where
  name : String
  kind : Nat
  mode : Nat
  size : Nat
  hash : List Nat
deriving DecidableEq

/-- Entry kinds (fs_store/mod.rs `EntryKind`). -/
inductive EntryKind where
  | File
  | Directory
  | Symlink
deriving DecidableEq

/-- `EntryKind::from(u8)`: unknown kinds default to `File`. -/
def entryKindOfNat (v : Nat) : EntryKind :=
  match v with
  | 0 => .File
  | 1 => .Directory
  | 2 => .Symlink
  | _ => .File

/-- `TreeEntry::kind_enum`. -/
def STreeEntry.kindEnum (e : STreeEntry) : EntryKind :=
  entryKindOfNat e.kind

/-- `TreeEntry::hash_array`: a 32-byte hash or a `Corrupt` error. -/
def STreeEntry.hashArray (e : STreeEntry) : Except StoreError (List Nat) :=
  if e.hash.length ≠ 32 then
    .error (.Corrupt ("invalid hash length: " ++ toString e.hash.length))
  else .ok e.hash

/-- One `(k, v)` step of the field loop in `parse_tree_entry`: decode the
numeric key (integer or decimal string, else skip the pair), then fill
the matching field when the value has the expected shape. -/
def parseEntryField (acc : STreeEntry) (kv : MsgValue × MsgValue) : STreeEntry :=
  let key : Nat :=
    match kv.1 with
    | .int i => (intAsU64 i).getD 0
    | .str s => (parseU64Str s).getD 0
    | _ => 0
  match kv.1 with
  | .int _ | .str _ =>
    match key with
    | 1 => match kv.2 with
           | .str s => { acc with name := s }
           | _ => acc
    | 2 => match kv.2 with
           | .int i => { acc with kind := (intAsU64 i).getD 0 % 256 }
           | _ => acc
    | 3 => match kv.2 with
           | .int i => { acc with mode := (intAsU64 i).getD 0 % 2 ^ 32 }
           | _ => acc
    | 4 => match kv.2 with
           | .int i => { acc with size := (intAsU64 i).getD 0 }
           | _ => acc
    | 5 => match kv.2 with
           | .bin b => { acc with hash := b }
           | _ => acc
    | _ => acc
  | _ => acc

/-- `parse_tree_entry`: a msgpack map with numeric keys 1..5, else a
`Corrupt` error. -/
def parseTreeEntry (v : MsgValue) : Except StoreError STreeEntry :=
  match v with
  | .map kvs => .ok (kvs.foldl parseEntryField ⟨"", 0, 0, 0, []⟩)
  | _ => .error (.Corrupt "tree entry is not a map")

/-- The element loop of `parse_tree_entries`. -/
def parseTreeEntryList : List MsgValue → Except StoreError (List STreeEntry)
  | [] => .ok []
  | v :: vs =>
    match parseTreeEntry v with
    | .error e => .error e
    | .ok entry =>
      match parseTreeEntryList vs with
      | .error e => .error e
      | .ok rest => .ok (entry :: rest)

/-- `parse_tree_entries`: decode one msgpack value from the bytes (via
the external reader), require an array, parse each element. -/
def parseTreeEntries (readValue : List Nat → Except String MsgValue)
    (bytes : List Nat) : Except StoreError (List STreeEntry) :=
  match readValue bytes with
  | .error e => .error (.Corrupt ("invalid tree msgpack: " ++ e))
  | .ok v =>
    match v with
    | .arr vs => parseTreeEntryList vs
    | _ => .error (.Corrupt "tree is not an array")

/-- `load_tree_entries`: blob fetch followed by msgpack parsing. -/
def loadTreeEntries (readValue : List Nat → Except String MsgValue)
    (blobGet : List Nat → Except StoreError (List Nat))
    (treeHash : List Nat) : Except StoreError (List STreeEntry) :=
  match blobGet treeHash with
  | .error e => .error e
  | .ok bytes => parseTreeEntries readValue bytes

/-- `str::trim_matches('/')`: strip leading and trailing slashes. -/
def trimSlashes (s : String) : String :=
  String.mk (((s.toList.dropWhile (· == '/')).reverse.dropWhile (· == '/')).reverse)

/-- `str::split('/')` on a character list: split at every slash, keeping
empty pieces (Rust yields [""] for the empty string). -/
def splitSlashGo (cur : List Char) : List Char → List (List Char)
  | [] => [cur.reverse]
  | c :: rest =>
    if c = '/' then cur.reverse :: splitSlashGo [] rest
    else splitSlashGo (c :: cur) rest

/-- Path splitting shared by `resolve_path` and `get_file_at_path`: trim
slashes, split on `/`, drop empty and `.` components. -/
def splitParts (path : String) : List String :=
  ((splitSlashGo [] (trimSlashes path).toList).map (fun cs => String.mk cs)).filter
    (fun s => s ≠ "" && s ≠ ".")

/-- The component loop of `resolve_path`, carrying the current tree hash.
The source's `unreachable!()` after the loop corresponds to the empty
list, which the caller never passes. -/
def resolveLoop (readValue : List Nat → Except String MsgValue)
    (blobGet : List Nat → Except StoreError (List Nat))
    (currentHash : List Nat) : List String → Except StoreError (List Nat × Bool)
  | [] => .error (.Corrupt "unreachable")
  | part :: rest =>
    match loadTreeEntries readValue blobGet currentHash with
    | .error e => .error e
    | .ok entries =>
      match entries.find? (fun e => e.name == part) with
      | none => .error (.NotFound ("path component not found: " ++ part))
      | some entry =>
        match entry.hashArray with
        | .error e => .error e
        | .ok entryHash =>
          if rest.isEmpty then .ok (entryHash, entry.kindEnum == .Directory)
          else if entry.kindEnum ≠ .Directory then
            .error (.InvalidInput ("not a directory: " ++ part))
          else resolveLoop readValue blobGet entryHash rest

/-- `resolve_path`: hash and directory flag of the entry at `path`. -/
def resolvePath (readValue : List Nat → Except String MsgValue)
    (blobGet : List Nat → Except StoreError (List Nat))
    (rootHash : List Nat) (path : String) : Except StoreError (List Nat × Bool) :=
  if path = "" ∨ path = "/" then .ok (rootHash, true)
  else
    let parts := splitParts path
    if parts.isEmpty then .ok (rootHash, true)
    else resolveLoop readValue blobGet rootHash parts

/-- The component loop of `get_file_at_path`; `fullPath` is the original
path string used in the directory-leaf error message. -/
def getFileLoop (readValue : List Nat → Except String MsgValue)
    (blobGet : List Nat → Except StoreError (List Nat)) (fullPath : String)
    (currentHash : List Nat) :
    List String → Except StoreError (List Nat × STreeEntry)
  | [] => .error (.Corrupt "unreachable")
  | part :: rest =>
    match loadTreeEntries readValue blobGet currentHash with
    | .error e => .error e
    | .ok entries =>
      match entries.find? (fun e => e.name == part) with
      | none => .error (.NotFound ("path component not found: " ++ part))
      | some entry =>
        match entry.hashArray with
        | .error e => .error e
        | .ok entryHash =>
          if rest.isEmpty then
            match entry.kindEnum with
            | .File =>
              match blobGet entryHash with
              | .error e => .error e
              | .ok content => .ok (content, entry)
            | .Symlink =>
              match blobGet entryHash with
              | .error e => .error e
              | .ok content => .ok (content, entry)
            | .Directory =>
              .error (.InvalidInput ("path is a directory: " ++ fullPath))
          else if entry.kindEnum ≠ .Directory then
            .error (.InvalidInput ("not a directory: " ++ part))
          else getFileLoop readValue blobGet fullPath entryHash rest

/-- `get_file_at_path`: content and entry of the file or symlink at
`path`. -/
def getFileAtPath (readValue : List Nat → Except String MsgValue)
    (blobGet : List Nat → Except StoreError (List Nat))
    (rootHash : List Nat) (path : String) :
    Except StoreError (List Nat × STreeEntry) :=
  let parts := splitParts path
  if parts.isEmpty then .error (.InvalidInput "empty path")
  else getFileLoop readValue blobGet path rootHash parts

/-! ## Glob patterns (external `glob` crate, as used by options.rs)

`glob::Pattern` is an external collaborator; the embedding follows its
compilation (`Pattern::new`) and matching (`matches_from`) with the
default `MatchOptions` (case sensitive, `*`/`?` may match `/`, no
literal-leading-dot requirement), which is what `Pattern::matches` uses.
A `PatternError` from `Pattern::new` is `none`; `matches_glob` in
options.rs maps it to `false`. -/

/-- A `[...]` class member: a single character or an inclusive range. -/
inductive CharSpecifier where
  | single (c : Char)
  | range (lo hi : Char)
deriving DecidableEq

/-- Compiled pattern tokens. -/
inductive GlobToken where
  | char (c : Char)
  | anyChar
  | anySequence
  | anyRecursiveSequence
  | anyWithin (specs : List CharSpecifier)
  | anyExcept (specs : List CharSpecifier)
deriving DecidableEq

/-- `parse_char_specifiers`: `a-b` forms a range when at least three
characters remain, everything else is a single character. -/
def parseCharSpecs : List Char → List CharSpecifier
  | a :: '-' :: b :: rest => .range a b :: parseCharSpecs rest
  | a :: rest => .single a :: parseCharSpecs rest
  | [] => []

/-- The collapse step of `Pattern::new` for `**`: consecutive recursive
wildcards are merged, except when the token list holds exactly one. -/
def pushRecursive (acc : List GlobToken) : List GlobToken :=
  if 1 < acc.length ∧ acc.head? = some .anyRecursiveSequence then acc
  else .anyRecursiveSequence :: acc

/-- The scanning loop of `Pattern::new`. `acc` holds the tokens in
reverse; `prev` is the character before the scan position (`none` at the
start), used to check that `**` begins a path component. -/
def globTokenizeGo (acc : List GlobToken) (prev : Option Char) :
    List Char → Option (List GlobToken)
  | [] => some acc.reverse
  | '?' :: rest => globTokenizeGo (.anyChar :: acc) (some '?') rest
  | '*' :: rest =>
    let run := rest.takeWhile (· == '*')
    let count := 1 + run.length
    if 2 < count then none
    else if count = 2 then
      if prev = none ∨ prev = some '/' then
        match h : rest.dropWhile (· == '*') with
        | '/' :: rest2 => globTokenizeGo (pushRecursive acc) (some '/') rest2
        | [] => some (pushRecursive acc).reverse
        | _ => none
      else none
    else globTokenizeGo (.anySequence :: acc) (some '*') rest
  | '[' :: '!' :: c0 :: d0 :: rest3 =>
    match h : (d0 :: rest3).dropWhile (· != ']') with
    | [] => none
    | _ :: after =>
      globTokenizeGo
        (.anyExcept (parseCharSpecs (c0 :: (d0 :: rest3).takeWhile (· != ']'))) :: acc)
        (some ']') after
  | '[' :: c0 :: d0 :: rest3 =>
    match h : (d0 :: rest3).dropWhile (· != ']') with
    | [] => none
    | _ :: after =>
      globTokenizeGo
        (.anyWithin (parseCharSpecs (c0 :: (d0 :: rest3).takeWhile (· != ']'))) :: acc)
        (some ']') after
  | '[' :: _ => none
  | c :: rest => globTokenizeGo (.char c :: acc) (some c) rest
termination_by chars => chars.length
decreasing_by
  all_goals simp_all
  · have h1 : (rest.dropWhile (fun c => c == '*')).length ≤ rest.length :=
      (List.dropWhile_sublist _).length_le
    rw [h] at h1
    simp at h1
    omega
  · have h1 : ((d0 :: rest3).dropWhile (fun c => c != ']')).length ≤ (d0 :: rest3).length :=
      (List.dropWhile_sublist _).length_le
    rw [h] at h1
    simp at h1
    omega
  · have h1 : ((d0 :: rest3).dropWhile (fun c => c != ']')).length ≤ (d0 :: rest3).length :=
      (List.dropWhile_sublist _).length_le
    rw [h] at h1
    simp at h1
    omega

/-- `Pattern::new`: `none` models a `PatternError`. -/
def globTokenize (pattern : String) : Option (List GlobToken) :=
  globTokenizeGo [] none pattern.toList

/-- The three-valued result of `matches_from`. -/
inductive MatchResult where
  | isMatch
  | subNoMatch
  | entireNoMatch
deriving DecidableEq

/-- `in_char_specifiers` under case-sensitive matching. -/
def inCharSpecs (specs : List CharSpecifier) (c : Char) : Bool :=
  specs.any fun sp =>
    match sp with
    | .single sc => c == sc
    | .range lo hi => lo ≤ c && c ≤ hi

mutual

/-- `Pattern::matches_from` with default options. A wildcard token first
tries the empty match, then hands the file to `seqLoop`; any other token
consumes one character. -/
def matchesFrom (followsSep : Bool) (file : List Char) :
    List GlobToken → MatchResult
  | [] => if file.isEmpty then .isMatch else .subNoMatch
  | tok :: rest =>
    match tok with
    | .anySequence | .anyRecursiveSequence =>
      (match matchesFrom followsSep file rest with
       | .subNoMatch => seqLoop tok followsSep file rest
       | r => r)
    | _ =>
      match file with
      | [] => .entireNoMatch
      | c :: file' =>
        let keep : Bool :=
          match tok with
          | .anyChar => true
          | .anyWithin specs => inCharSpecs specs c
          | .anyExcept specs => !(inCharSpecs specs c)
          | .char c2 => c == c2
          | _ => false
        if keep then matchesFrom (c == '/') file' rest else .subNoMatch
termination_by toks => (file.length, toks.length, 0)

/-- The consuming loop of a wildcard token: `**` only retries the rest of
the pattern at component boundaries, `*` after every character; when the
file runs out the scan falls through to the remaining tokens. -/
def seqLoop (tok : GlobToken) (followsSep : Bool) (file : List Char)
    (rest : List GlobToken) : MatchResult :=
  match file with
  | [] => matchesFrom followsSep [] rest
  | c :: file' =>
    let fs := c == '/'
    if tok == .anyRecursiveSequence && !fs then seqLoop tok fs file' rest
    else
      match matchesFrom fs file' rest with
      | .subNoMatch => seqLoop tok fs file' rest
      | r => r
termination_by (file.length, rest.length, 1)

end

/-- `Pattern::matches`: the scan starts at a component boundary. -/
def patternMatches (toks : List GlobToken) (path : String) : Bool :=
  matchesFrom true path.toList toks == .isMatch

/-- `matches_glob` (options.rs): compile then match; compilation failure
is `false`. -/
def matchesGlob (pattern path : String) : Bool :=
  match globTokenize pattern with
  | none => false
  | some toks => patternMatches toks path

/-! ## Snapshot options (clients/rust/src/fstree/options.rs) -/

/-- `Options` (options.rs). The exclusion callback is carried as a plain
function. -/
structure Options where
  exclude_patterns : List String
  exclude_fn : Option (String → Bool → Bool)
  follow_symlinks : Bool
  max_file_size : Int
  max_files : Nat

/-- `Options::default`. -/
def Options.defaults : Options :=
  { exclude_patterns := [], exclude_fn := none, follow_symlinks := false,
    max_file_size := 100 * 1024 * 1024, max_files := 100000 }

/-- `with_exclude`. -/
def with_exclude (patterns : List String) : Options → Options :=
  fun o => { o with exclude_patterns := o.exclude_patterns ++ patterns }

/-- `with_exclude_func`. -/
def with_exclude_func (f : String → Bool → Bool) : Options → Options :=
  fun o => { o with exclude_fn := some f }

/-- `with_follow_symlinks`. -/
def with_follow_symlinks : Options → Options :=
  fun o => { o with follow_symlinks := true }

/-- `with_max_file_size`. -/
def with_max_file_size (bytes : Int) : Options → Options :=
  fun o => { o with max_file_size := bytes }

/-- `with_max_files`. -/
def with_max_files (count : Nat) : Options → Options :=
  fun o => { o with max_files := count }

/-- `str::starts_with` via character lists (kernel-reducible). -/
def strStartsWith (s pre : String) : Bool :=
  charsPrefixOf pre.toList s.toList

/-- `str::ends_with` via character lists (kernel-reducible). -/
def strEndsWith (s suf : String) : Bool :=
  charsPrefixOf suf.toList.reverse s.toList.reverse

/-- Drop the last `n` characters (the strip of a known ASCII suffix). -/
def strDropRight (s : String) (n : Nat) : String :=
  String.mk (s.toList.take (s.toList.length - n))

/-- `normalize_path`: backslashes become forward slashes. -/
def normalize_path (p : String) : String :=
  String.mk (p.toList.map (fun c => if c = '\\' then '/' else c))

/-- `Path::file_name().and_then(to_str).unwrap_or("")` on the normalised
relative path: the last component after dropping empty and `.` parts,
with `""` for a trailing `..` or an empty path. -/
def path_file_name (p : String) : String :=
  match (((splitSlashGo [] p.toList).map (fun cs => String.mk cs)).filter
      (fun s => s ≠ "" && s ≠ ".")).getLast? with
  | some last => if last = ".." then "" else last
  | none => ""

/-- `is_double_star_dir` (options.rs): a `p/**` pattern excludes a
directory equal to the stripped pattern, under it, or glob-matching it. -/
def is_double_star_dir (pattern rel_path : String) (is_dir : Bool) : Bool :=
  if !is_dir then false
  else if strEndsWith pattern "/**" then
    let pre := strDropRight pattern 3
    if rel_path = pre then true
    else strStartsWith rel_path (String.mk (pre.toList ++ ['/'])) || matchesGlob pre rel_path
  else false

/-- `Options::should_exclude` (options.rs). -/
def Options.should_exclude (o : Options) (rel_path : String) (is_dir : Bool) : Bool :=
  (match o.exclude_fn with
   | some f => f rel_path is_dir
   | none => false) ||
  (let rel := normalize_path rel_path
   let base := path_file_name rel
   o.exclude_patterns.any (fun pattern =>
     is_double_star_dir pattern rel is_dir || matchesGlob pattern rel ||
       matchesGlob pattern base))

/-! ## Snapshot capture (clients/rust/src/fstree/capture.rs)

The filesystem seen by one run of the walk is a finite tree: regular
files with content bytes, directories with their `read_dir` listing in
the order the OS yields it, symlinks with a target (the walk is modelled
with stats not following links, matching the default
`follow_symlinks = false`), and `errEntry`, an entry on which
`build_entry` fails — an unreadable file (`Io`), a detected symlink cycle
(`CyclicLink`), and so on. BLAKE3-256 is external; it is modelled as an
injective deterministic function of the input bytes (the idealisation of
a collision-free hash). `encode_msgpack` lives in the encoding module,
which is not among the sources; modelled from the spec: the blob is a
binary array of the entries in list order, each a numeric-string-keyed
map of the five fields — an injective, order-preserving byte encoding. -/

/-- `FstreeErrorKind` (capture.rs). -/
inductive FstreeErrorKind where
  | TooManyFiles
  | FileTooLarge
  | CyclicLink
  | Io
  | Msgpack
  | Client
  | Other
deriving DecidableEq

/-- `FstreeError` (capture.rs). -/
structure FstreeError where
  kind : FstreeErrorKind
  detail : String
deriving DecidableEq

/-- One observed filesystem tree. -/
inductive FsNode where
  | file (mode : Nat) (content : List Nat)
  | dir (mode : Nat) (entries : List (String × FsNode))
  | symlink (mode : Nat) (target : String)
  | errEntry (kind : FstreeErrorKind) (detail : String)

/-- UTF-8 bytes of one character. -/
def charUtf8 (c : Char) : List Nat :=
  let n := c.toNat
  if n < 0x80 then [n]
  else if n < 0x800 then [0xC0 + n / 64, 0x80 + n % 64]
  else if n < 0x10000 then [0xE0 + n / 4096, 0x80 + n / 64 % 64, 0x80 + n % 64]
  else [0xF0 + n / 262144, 0x80 + n / 4096 % 64, 0x80 + n / 64 % 64, 0x80 + n % 64]

/-- UTF-8 bytes of a string (Rust `str::as_bytes`). -/
def utf8Bytes (s : String) : List Nat :=
  (s.toList.map charUtf8).flatten

/-- BLAKE3-256, modelled as an injective function of the input bytes. -/
def blake3Hash (bs : List Nat) : List Nat := bs

/-- A client-side tree entry (modelled from the spec, §3: fstree/types.rs
is not among the sources). -/
structure TreeEntry where
  name : String
  kind : Nat
  mode : Nat
  size : Nat
  hash : List Nat
deriving DecidableEq

/-- Byte-lexicographic `≤`, the order of Rust's `String::cmp` on the
UTF-8 bytes. -/
def bytesLe : List Nat → List Nat → Bool
  | [], _ => true
  | _ :: _, [] => false
  | a :: as, b :: bs => a < b || (a == b && bytesLe as bs)

/-- Entry comparison of the `sort_by` call in `build_tree`. -/
def nameLe (a b : TreeEntry) : Bool :=
  bytesLe (utf8Bytes a.name) (utf8Bytes b.name)

/-- `entries.sort_by(|a, b| a.name.cmp(&b.name))`: a stable sort by name.
Rust's stable merge sort and insertion sort agree on every input. -/
def sortEntries (es : List TreeEntry) : List TreeEntry :=
  List.insertionSort (fun a b => nameLe a b = true) es

/-- The encoded bytes of one tree entry (modelled from the spec, see the
section comment). -/
def encodeEntry (e : TreeEntry) : List Nat :=
  let nb := utf8Bytes e.name
  [1, nb.length] ++ nb ++ [2, e.kind, 3, e.mode, 4, e.size, 5, e.hash.length] ++ e.hash

/-- The encoded bytes of a tree blob: the entries in list order. -/
def encodeTree (es : List TreeEntry) : List Nat :=
  es.length :: (es.map encodeEntry).flatten

/-- `FileRef` (modelled from the spec, §3): the upload-time reference
recorded per file; the model stores the walk's path for it. -/
structure FileRef where
  path : String
  size : Nat
  hash : List Nat
deriving DecidableEq

/-- The mutable state of `Builder` (capture.rs), minus the `visited` set:
the model's trees are finite, so the cycle check never fires on them (a
detected cycle is an `errEntry` with kind `CyclicLink`). -/
structure BuilderState where
  trees : List (List Nat × List Nat)
  files : List (List Nat × FileRef)
  symlinks : List (List Nat × String)
  file_count : Nat
  dir_count : Nat
  symlink_count : Nat
  total_bytes : Nat
deriving DecidableEq

/-- `Builder::new`. -/
def emptyBuilder : BuilderState :=
  ⟨[], [], [], 0, 0, 0, 0⟩

/-- `HashMap::insert` keyed by hash bytes. -/
def hInsert {β : Type} (m : List (List Nat × β)) (k : List Nat) (v : β) :
    List (List Nat × β) :=
  if m.any (fun p => p.1 = k) then
    m.map (fun p => if p.1 = k then (k, v) else p)
  else
    m ++ [(k, v)]

/-- `rel_path.join(name)` for the walk's relative paths. -/
def joinPath (base name : String) : String :=
  if base = "" then name else base ++ "/" ++ name

/-- `DirEntry::file_type().map(|t| t.is_dir()).unwrap_or(false)`. -/
def isDirNode : FsNode → Bool
  | .dir _ _ => true
  | _ => false

/-- The `size as i64` cast in `build_entry`: reinterpret a `u64` value in
two's complement, so sizes of at least 2^63 become negative. -/
def u64AsI64 (n : Nat) : Int :=
  if n % 2 ^ 64 < 2 ^ 63 then ((n % 2 ^ 64 : Nat) : Int)
  else ((n % 2 ^ 64 : Nat) : Int) - 2 ^ 64

/-- Decimal digits of `n`, most significant first, appended before `acc`;
the first argument is fuel (`n + 1` suffices, as each step divides by 10). -/
def natDecGo : Nat → Nat → List Char → List Char
  | 0, _, acc => acc
  | fuel + 1, n, acc =>
    if n < 10 then Char.ofNat (48 + n % 10) :: acc
    else natDecGo fuel (n / 10) (Char.ofNat (48 + n % 10) :: acc)

/-- Decimal rendering of a natural number, as `format!` prints a `u64`. -/
def natDec (n : Nat) : String :=
  ⟨natDecGo (n + 1) n []⟩

mutual

/-- `Builder::build_tree`: walk one directory listing, sort the collected
entries by name, encode, hash, record the blob. -/
def buildTree (opts : Options) (st : BuilderState) (relPath : String)
    (entries : List (String × FsNode)) :
    Except FstreeError (BuilderState × List Nat) :=
  match buildChildren opts st relPath entries with
  | .error e => .error e
  | .ok (st1, tes) =>
    let treeBytes := encodeTree (sortEntries tes)
    let h := blake3Hash treeBytes
    .ok ({ st1 with trees := hInsert st1.trees h treeBytes,
                    dir_count := st1.dir_count + 1 }, h)
termination_by (sizeOf entries, 1)

/-- The child loop of `build_tree`: skip excluded entries; skip entries
whose `build_entry` fails with any kind other than `TooManyFiles` or
`CyclicLink`; propagate those two. -/
def buildChildren (opts : Options) (st : BuilderState) (relPath : String) :
    List (String × FsNode) →
    Except FstreeError (BuilderState × List TreeEntry)
  | [] => .ok (st, [])
  | (name, node) :: rest =>
    let childRel := joinPath relPath name
    if opts.should_exclude childRel (isDirNode node) then
      buildChildren opts st relPath rest
    else
      match buildEntry opts st childRel name node with
      | .ok (st1, te) =>
        (match buildChildren opts st1 relPath rest with
         | .ok (st2, tes) => .ok (st2, te :: tes)
         | .error e => .error e)
      | .error e =>
        if e.kind = .TooManyFiles ∨ e.kind = .CyclicLink then .error e
        else buildChildren opts st relPath rest
termination_by es => (sizeOf es, 0)

/-- `Builder::build_entry`: symlink, directory, or regular file with the
`max_files` and `max_file_size` checks. -/
def buildEntry (opts : Options) (st : BuilderState) (childRel name : String) :
    FsNode → Except FstreeError (BuilderState × TreeEntry)
  | .errEntry k d => .error ⟨k, d⟩
  | .symlink mode target =>
    let tb := utf8Bytes target
    let h := blake3Hash tb
    .ok ({ st with symlink_count := st.symlink_count + 1,
                   symlinks := hInsert st.symlinks h target },
         ⟨name, 2, Nat.land mode 4095, tb.length, h⟩)
  | .dir mode es =>
    (match buildTree opts st childRel es with
     | .error e => .error e
     | .ok (st1, h) => .ok (st1, ⟨name, 1, Nat.land mode 4095, 0, h⟩))
  | .file mode content =>
    if opts.max_files ≤ st.file_count then
      .error ⟨.TooManyFiles, "too many files"⟩
    else
      let size := content.length
      if u64AsI64 size > opts.max_file_size then
        .error ⟨.FileTooLarge,
          "file too large: " ++ childRel ++ " (" ++ natDec size ++ " bytes)"⟩
      else
        let h := blake3Hash content
        .ok ({ st with files := hInsert st.files h ⟨childRel, size, h⟩,
                       file_count := st.file_count + 1,
                       total_bytes := st.total_bytes + size },
             ⟨name, 0, Nat.land mode 4095, size, h⟩)
termination_by node => (sizeOf node, 2)

end

/-- Snapshot statistics (`SnapshotStats`, modelled from the spec, §3;
wall-clock duration is outside the model). -/
structure SnapshotStats where
  file_count : Nat
  dir_count : Nat
  symlink_count : Nat
  total_bytes : Nat
deriving DecidableEq

/-- A captured snapshot (`Snapshot`, modelled from the spec, §3;
`captured_at` is outside the model). -/
structure Snapshot where
  root_hash : List Nat
  trees : List (List Nat × List Nat)
  files : List (List Nat × FileRef)
  symlinks : List (List Nat × String)
  stats : SnapshotStats
deriving DecidableEq

/-- `capture` (capture.rs): apply the options to the defaults, require a
directory root, run the walk from the empty relative path. -/
def capture (root : FsNode) (opts : List (Options → Options)) :
    Except FstreeError Snapshot :=
  match root with
  | .dir _ entries =>
    let options := opts.foldl (fun o f => f o) Options.defaults
    (match buildTree options emptyBuilder "" entries with
     | .error e => .error e
     | .ok (st, h) =>
       .ok ⟨h, st.trees, st.files, st.symlinks,
            ⟨st.file_count, st.dir_count, st.symlink_count, st.total_bytes⟩⟩)
  | _ => .error ⟨.Other, "root is not a directory"⟩

/-! ## Order-free description of a successful walk

For the determinism claim a successful run is compared against pure,
state-free functions of the observed tree: which entry a child
contributes (if any), the hash of a directory, and the sets of tree and
file hashes the walk records. These are definitions over the same
embedded tree type, used only in the theorems below. -/

mutual

/-- The tree entry a non-excluded child contributes in a run that
returns `Ok` (mirrors `build_entry`; a skippable failure is `none`). -/
def specEntryNode (opts : Options) (childRel name : String) :
    FsNode → Option TreeEntry
  | .errEntry _ _ => none
  | .symlink mode target =>
    let tb := utf8Bytes target
    some ⟨name, 2, Nat.land mode 4095, tb.length, blake3Hash tb⟩
  | .dir mode es =>
    some ⟨name, 1, Nat.land mode 4095, 0, specTreeHash opts childRel es⟩
  | .file mode content =>
    if u64AsI64 content.length > opts.max_file_size then none
    else some ⟨name, 0, Nat.land mode 4095, content.length, blake3Hash content⟩
termination_by node => (sizeOf node, 3)

/-- The tree entry a child contributes to its parent in a run that
returns `Ok`: `none` when the child is excluded or skipped. -/
def specEntry (opts : Options) (relPath : String) :
    String × FsNode → Option TreeEntry
  | (name, node) =>
    if opts.should_exclude (joinPath relPath name) (isDirNode node) then none
    else specEntryNode opts (joinPath relPath name) name node
termination_by p => (sizeOf p, 4)

/-- The entries a listing contributes, in listing order. -/
def specChildren (opts : Options) (relPath : String) :
    List (String × FsNode) → List TreeEntry
  | [] => []
  | e :: rest =>
    (match specEntry opts relPath e with
     | some te => te :: specChildren opts relPath rest
     | none => specChildren opts relPath rest)
termination_by es => (sizeOf es, 0)

/-- The hash a directory listing receives. -/
def specTreeHash (opts : Options) (relPath : String)
    (entries : List (String × FsNode)) : List Nat :=
  blake3Hash (encodeTree (sortEntries (specChildren opts relPath entries)))
termination_by (sizeOf entries, 2)

end

mutual

/-- The tree-blob hashes one non-excluded child contributes (its own
blob included when it is a directory). -/
def specTreeKeysNode (opts : Options) (childRel : String) :
    FsNode → List (List Nat)
  | .dir _ es => specTreeHash opts childRel es :: specTreeKeys opts childRel es
  | _ => []
termination_by node => (sizeOf node, 1)

/-- The tree-blob hashes recorded strictly below a directory with this
listing (the listing's own blob not included). -/
def specTreeKeys (opts : Options) (relPath : String) :
    List (String × FsNode) → List (List Nat)
  | [] => []
  | (name, node) :: rest =>
    (if opts.should_exclude (joinPath relPath name) (isDirNode node) then []
     else specTreeKeysNode opts (joinPath relPath name) node) ++
      specTreeKeys opts relPath rest
termination_by es => (sizeOf es, 2)

end

mutual

/-- The file-content hashes one non-excluded child contributes. -/
def specFileKeysNode (opts : Options) (childRel : String) :
    FsNode → List (List Nat)
  | .dir _ es => specFileKeys opts childRel es
  | .file _ content =>
    if u64AsI64 content.length > opts.max_file_size then []
    else [blake3Hash content]
  | _ => []
termination_by node => (sizeOf node, 1)

/-- The file-content hashes recorded below a directory with this
listing. -/
def specFileKeys (opts : Options) (relPath : String) :
    List (String × FsNode) → List (List Nat)
  | [] => []
  | (name, node) :: rest =>
    (if opts.should_exclude (joinPath relPath name) (isDirNode node) then []
     else specFileKeysNode opts (joinPath relPath name) node) ++
      specFileKeys opts relPath rest
termination_by es => (sizeOf es, 2)

end

/-- Stable sort of a listing by the UTF-8 bytes of the entry name. -/
def sortPairs (es : List (String × FsNode)) : List (String × FsNode) :=
  List.insertionSort (fun a b => bytesLe (utf8Bytes a.1) (utf8Bytes b.1) = true) es

mutual

/-- Canonical form of an observed tree: every directory listing sorted by
name, recursively. Two observations of the same unchanged directory that
differ only in the order `read_dir` yields children have the same
canonical form (directory listings have pairwise distinct names). -/
def canonNode : FsNode → FsNode
  | .dir m es => .dir m (sortPairs (canonList es))
  | n => n
termination_by n => (sizeOf n, 1)

/-- Canonicalise every child of a listing. -/
def canonList : List (String × FsNode) → List (String × FsNode)
  | [] => []
  | (n, c) :: rest => (n, canonNode c) :: canonList rest
termination_by es => (sizeOf es, 0)

end

/-- No duplicates, over hash-byte keys. -/
def nodupList : List (List Nat) → Bool
  | [] => true
  | x :: xs => !(xs.contains x) && nodupList xs

mutual

/-- Every directory listing in the tree carries pairwise distinct names
(true of any real directory). -/
def nodupNames : FsNode → Bool
  | .dir _ es => nodupList (es.map (fun p => utf8Bytes p.1)) && nodupNamesList es
  | _ => true
termination_by n => (sizeOf n, 1)

/-- `nodupNames` over a listing's children. -/
def nodupNamesList : List (String × FsNode) → Bool
  | [] => true
  | (_, c) :: rest => nodupNames c && nodupNamesList rest
termination_by es => (sizeOf es, 0)

end

/-- The key set of a hash-keyed association list. -/
def keySet {β : Type} (m : List (List Nat × β)) : Finset (List Nat) :=
  (m.map Prod.fst).toFinset

/-- The name order of the tree encoding, as a relation. -/
def nameLeR (a b : TreeEntry) : Prop :=
  nameLe a b = true

/-- A well-formed tree blob: the encoding of an entry list sorted by
name, byte-lexicographic ascending. -/
def sortedBlob (b : List Nat) : Prop :=
  ∃ es, b = encodeTree es ∧ List.Sorted nameLeR es

/-- Every blob value of a trees map is a sorted encoding. -/
def treesSorted (m : List (List Nat × List Nat)) : Prop :=
  ∀ p ∈ m, sortedBlob p.2

/-! # Theorems -/

theorem bytesLe_total (a b : List Nat) : bytesLe a b = true ∨ bytesLe b a = true := by
  induction a generalizing b with
  | nil => exact Or.inl rfl
  | cons x xs ih =>
    cases b with
    | nil => exact Or.inr rfl
    | cons y ys =>
      rcases Nat.lt_trichotomy x y with h | h | h
      · exact Or.inl (by simp [bytesLe, h])
      · subst h
        rcases ih ys with h2 | h2
        · exact Or.inl (by simp [bytesLe, h2])
        · exact Or.inr (by simp [bytesLe, h2])
      · exact Or.inr (by simp [bytesLe, h])

theorem bytesLe_trans (a b c : List Nat) (hab : bytesLe a b = true)
    (hbc : bytesLe b c = true) : bytesLe a c = true := by
  induction a generalizing b c with
  | nil => rfl
  | cons x xs ih =>
    cases b with
    | nil => simp [bytesLe] at hab
    | cons y ys =>
      cases c with
      | nil => simp [bytesLe] at hbc
      | cons z zs =>
        simp only [bytesLe, Bool.or_eq_true, Bool.and_eq_true, beq_iff_eq,
          decide_eq_true_eq] at hab hbc ⊢
        rcases hab with hab | ⟨hxy, hab⟩
        · rcases hbc with hbc | ⟨hyz, hbc⟩
          · exact Or.inl (Nat.lt_trans hab hbc)
          · exact Or.inl (hyz ▸ hab)
        · rcases hbc with hbc | ⟨hyz, hbc⟩
          · exact Or.inl (hxy ▸ hbc)
          · exact Or.inr ⟨hxy.trans hyz, ih ys zs hab hbc⟩

theorem sortEntries_sorted (es : List TreeEntry) :
    List.Sorted nameLeR (sortEntries es) := by
  have htot : IsTotal TreeEntry (fun a b => nameLe a b = true) :=
    ⟨fun a b => bytesLe_total (utf8Bytes a.name) (utf8Bytes b.name)⟩
  have htrans : IsTrans TreeEntry (fun a b => nameLe a b = true) :=
    ⟨fun a b c hab hbc => bytesLe_trans _ _ _ hab hbc⟩
  exact @List.sorted_insertionSort _ _ _ htot htrans es

theorem sortEntries_perm (es : List TreeEntry) : (sortEntries es).Perm es :=
  List.perm_insertionSort _ es

theorem hInsert_mem {β : Type} (m : List (List Nat × β)) (k : List Nat) (v : β)
    (p : List Nat × β) (hp : p ∈ hInsert m k v) : p ∈ m ∨ p = (k, v) := by
  unfold hInsert at hp
  by_cases hany : m.any (fun q => q.1 = k) = true
  · rw [if_pos hany] at hp
    rcases List.mem_map.mp hp with ⟨q, hq, hqe⟩
    by_cases hqk : q.1 = k
    · right
      rw [if_pos hqk] at hqe
      exact hqe.symm
    · left
      rw [if_neg hqk] at hqe
      exact hqe ▸ hq
  · rw [if_neg hany] at hp
    rcases List.mem_append.mp hp with h | h
    · exact Or.inl h
    · exact Or.inr (List.mem_singleton.mp h)

/-- Every blob the walk records into `trees` is the encoding of a listing
sorted by name (the insert happens only in `build_tree`, after the
sort). -/
theorem buildTree_treesSorted (opts : Options) :
    ∀ (st : BuilderState) (relPath : String) (entries : List (String × FsNode)),
      ∀ st2 h2, buildTree opts st relPath entries = .ok (st2, h2) →
        treesSorted st.trees → treesSorted st2.trees := by
  refine buildTree.induct opts
    (fun st rel es => ∀ st2 h2, buildTree opts st rel es = .ok (st2, h2) →
      treesSorted st.trees → treesSorted st2.trees)
    (fun st rel es => ∀ st2 tes, buildChildren opts st rel es = .ok (st2, tes) →
      treesSorted st.trees → treesSorted st2.trees)
    (fun st cr n node => ∀ st2 te, buildEntry opts st cr n node = .ok (st2, te) →
      treesSorted st.trees → treesSorted st2.trees)
    ?_ ?_ ?_ ?_ ?_ ?_ ?_ ?_ ?_ ?_ ?_ ?_ ?_ ?_ ?_
  · intro st rel es e hch _ st2 h2 hok _
    rw [buildTree.eq_def, hch] at hok
    simp at hok
  · intro st rel es st1 tes hch ih st2 h2 hok hinv
    rw [buildTree.eq_def, hch] at hok
    simp only [Except.ok.injEq, Prod.mk.injEq] at hok
    obtain ⟨hst2, _⟩ := hok
    subst hst2
    intro p hp
    rcases hInsert_mem _ _ _ p (by simpa using hp) with hpm | hpe
    · exact ih st1 tes hch hinv p hpm
    · rw [hpe]
      exact ⟨sortEntries tes, rfl, sortEntries_sorted tes⟩
  · intro st rel st2 tes hok hinv
    rw [buildChildren.eq_def] at hok
    simp only [Except.ok.injEq, Prod.mk.injEq] at hok
    obtain ⟨hst2, _⟩ := hok
    subst hst2
    exact hinv
  · intro st rel name node rest childRel hexc ih st2 tes hok hinv
    rw [buildChildren.eq_def] at hok
    simp only [show childRel = joinPath rel name from rfl] at hexc
    simp only [hexc, if_true] at hok
    exact ih st2 tes hok hinv
  · intro st rel name node rest childRel hexc st1 te hentry st2 tes hch ih3 ih2
    intro stF tesF hok hinv
    rw [buildChildren.eq_def] at hok
    simp only [show childRel = joinPath rel name from rfl] at hexc hentry
    simp only [eq_false_of_ne_true hexc, Bool.false_eq_true, if_false,
      hentry, hch, Except.ok.injEq, Prod.mk.injEq] at hok
    obtain ⟨hst, _⟩ := hok
    subst hst
    exact ih2 _ tes hch (ih3 st1 te hentry hinv)
  · intro st rel name node rest childRel hexc st1 te hentry e hch _ _
    intro stF tesF hok _
    rw [buildChildren.eq_def] at hok
    simp only [show childRel = joinPath rel name from rfl] at hexc hentry
    simp only [eq_false_of_ne_true hexc, Bool.false_eq_true, if_false,
      hentry, hch] at hok
    simp at hok
  · intro st rel name node rest childRel hexc e hentry hkind _
    intro stF tesF hok _
    rw [buildChildren.eq_def] at hok
    simp only [show childRel = joinPath rel name from rfl] at hexc hentry
    simp only [eq_false_of_ne_true hexc, Bool.false_eq_true, if_false,
      hentry, if_pos hkind] at hok
    simp at hok
  · intro st rel name node rest childRel hexc e hentry hkind _ ih2
    intro stF tesF hok hinv
    rw [buildChildren.eq_def] at hok
    simp only [show childRel = joinPath rel name from rfl] at hexc hentry
    simp only [eq_false_of_ne_true hexc, Bool.false_eq_true, if_false,
      hentry, if_neg hkind] at hok
    exact ih2 stF tesF hok hinv
  · intro st cr n k d st2 te hok _
    rw [buildEntry.eq_def] at hok
    simp at hok
  · intro st cr n mode target st2 te hok hinv
    rw [buildEntry.eq_def] at hok
    simp only [Except.ok.injEq, Prod.mk.injEq] at hok
    obtain ⟨hst2, _⟩ := hok
    subst hst2
    exact hinv
  · intro st cr n mode es e htree _ st2 te hok _
    rw [buildEntry.eq_def] at hok
    simp only [htree] at hok
    exact Except.noConfusion hok
  · intro st cr n mode es st1 h htree ih1 st2 te hok hinv
    rw [buildEntry.eq_def] at hok
    simp only [htree, Except.ok.injEq, Prod.mk.injEq] at hok
    obtain ⟨hst2, _⟩ := hok
    subst hst2
    exact ih1 st1 h htree hinv
  · intro st cr n mode content hcount st2 te hok _
    rw [buildEntry.eq_def] at hok
    simp only [if_pos hcount] at hok
    exact Except.noConfusion hok
  · intro st cr n mode content hcount size hsize st2 te hok _
    rw [buildEntry.eq_def] at hok
    simp only [if_neg hcount, show u64AsI64 size = u64AsI64 content.length from rfl] at hok
    simp only [if_pos hsize] at hok
    exact Except.noConfusion hok
  · intro st cr n mode content hcount size hsize st2 te hok hinv
    rw [buildEntry.eq_def] at hok
    simp only [if_neg hcount] at hok
    simp only [if_neg hsize, Except.ok.injEq, Prod.mk.injEq] at hok
    obtain ⟨hst2, _⟩ := hok
    subst hst2
    exact hinv

theorem bytesLe_antisymm (a b : List Nat) (hab : bytesLe a b = true)
    (hba : bytesLe b a = true) : a = b := by
  induction a generalizing b with
  | nil =>
    cases b with
    | nil => rfl
    | cons y ys => simp [bytesLe] at hba
  | cons x xs ih =>
    cases b with
    | nil => simp [bytesLe] at hab
    | cons y ys =>
      simp only [bytesLe, Bool.or_eq_true, Bool.and_eq_true, beq_iff_eq,
        decide_eq_true_eq] at hab hba
      rcases hab with hab | ⟨hxy, hab⟩
      · rcases hba with hba | ⟨hyx, _⟩
        · omega
        · omega
      · rcases hba with hba | ⟨_, hba⟩
        · omega
        · rw [hxy, ih ys hab hba]

/-- Two sorted permutations of each other with pairwise-distinct name
keys coincide. -/
theorem sorted_perm_nodup_eq (l₁ l₂ : List TreeEntry) (hperm : l₁.Perm l₂)
    (hs₁ : List.Sorted nameLeR l₁) (hs₂ : List.Sorted nameLeR l₂)
    (hnd : (l₁.map (fun e => utf8Bytes e.name)).Nodup) : l₁ = l₂ := by
  induction l₁ generalizing l₂ with
  | nil => exact (List.Perm.nil_eq hperm).symm ▸ rfl
  | cons a t₁ ih =>
    cases l₂ with
    | nil => exact absurd hperm.symm (by simp)
    | cons b t₂ =>
      have hab : a = b := by
        by_cases heq : a = b
        · exact heq
        · have hbmem : b ∈ a :: t₁ := hperm.symm.subset (by simp)
          have hamem : a ∈ b :: t₂ := hperm.subset (by simp)
          have hbt₁ : b ∈ t₁ := by
            rcases List.mem_cons.mp hbmem with h | h
            · exact absurd h.symm heq
            · exact h
          have hat₂ : a ∈ t₂ := by
            rcases List.mem_cons.mp hamem with h | h
            · exact absurd h heq
            · exact h
          have h1 : nameLeR a b := (List.sorted_cons.mp hs₁).1 b hbt₁
          have h2 : nameLeR b a := (List.sorted_cons.mp hs₂).1 a hat₂
          have hnames : utf8Bytes a.name = utf8Bytes b.name :=
            bytesLe_antisymm _ _ h1 h2
          exfalso
          have : utf8Bytes b.name ∈ t₁.map (fun e => utf8Bytes e.name) :=
            List.mem_map_of_mem _ hbt₁
          rw [← hnames] at this
          exact (List.nodup_cons.mp hnd).1 this
      subst hab
      have hperm' : t₁.Perm t₂ := hperm.cons_inv
      exact congrArg (a :: ·)
        (ih t₂ hperm' (List.sorted_cons.mp hs₁).2 (List.sorted_cons.mp hs₂).2
          (List.nodup_cons.mp hnd).2)

/-- Stable sorting two listings that are permutations of each other with
distinct names gives the same list. -/
theorem sortEntries_eq_of_perm_nodup (l₁ l₂ : List TreeEntry) (hperm : l₁.Perm l₂)
    (hnd : (l₁.map (fun e => utf8Bytes e.name)).Nodup) :
    sortEntries l₁ = sortEntries l₂ := by
  have h1 : (sortEntries l₁).Perm (sortEntries l₂) :=
    (sortEntries_perm l₁).trans (hperm.trans (sortEntries_perm l₂).symm)
  have hnd1 : ((sortEntries l₁).map (fun e => utf8Bytes e.name)).Nodup := by
    refine List.Perm.nodup ?_ hnd
    exact ((sortEntries_perm l₁).map _).symm
  exact sorted_perm_nodup_eq _ _ h1 (sortEntries_sorted l₁) (sortEntries_sorted l₂) hnd1

theorem keySet_hInsert {β : Type} (m : List (List Nat × β)) (k : List Nat) (v : β) :
    keySet (hInsert m k v) = insert k (keySet m) := by
  unfold hInsert keySet
  by_cases hany : m.any (fun q => q.1 = k) = true
  · rw [if_pos hany]
    have hmap : (m.map (fun p => if p.1 = k then (k, v) else p)).map Prod.fst =
        m.map Prod.fst := by
      rw [List.map_map]
      apply List.map_congr_left
      intro p _
      by_cases h : p.1 = k
      · simp [h]
      · simp [h]
    rw [hmap]
    have hk : k ∈ (m.map Prod.fst).toFinset := by
      rcases List.any_eq_true.mp hany with ⟨q, hq, hqe⟩
      simp only [decide_eq_true_eq] at hqe
      exact List.mem_toFinset.mpr (hqe ▸ List.mem_map_of_mem Prod.fst hq)
    rw [Finset.insert_eq_self.mpr hk]
  · rw [if_neg hany, List.map_append, List.toFinset_append]
    simp [Finset.insert_eq, Finset.union_comm]

/-- `build_tree` can only fail with the two propagated kinds: every other
per-entry failure is swallowed by the child loop. -/
theorem buildTree_error_kind (opts : Options) :
    ∀ (st : BuilderState) (relPath : String) (entries : List (String × FsNode)),
      ∀ e, buildTree opts st relPath entries = .error e →
        e.kind = FstreeErrorKind.TooManyFiles ∨ e.kind = FstreeErrorKind.CyclicLink := by
  refine buildTree.induct opts
    (fun st rel es => ∀ e, buildTree opts st rel es = .error e →
      e.kind = FstreeErrorKind.TooManyFiles ∨ e.kind = FstreeErrorKind.CyclicLink)
    (fun st rel es => ∀ e, buildChildren opts st rel es = .error e →
      e.kind = FstreeErrorKind.TooManyFiles ∨ e.kind = FstreeErrorKind.CyclicLink)
    (fun _ _ _ _ => True)
    ?_ ?_ ?_ ?_ ?_ ?_ ?_ ?_ ?_ ?_ ?_ ?_ ?_ ?_ ?_
  · intro st rel es e hch ih e2 hok
    rw [buildTree.eq_def, hch] at hok
    simp only [Except.error.injEq] at hok
    exact hok ▸ ih e hch
  · intro st rel es st1 tes hch _ e2 hok
    rw [buildTree.eq_def, hch] at hok
    simp at hok
  · intro st rel e hok
    rw [buildChildren.eq_def] at hok
    exact Except.noConfusion hok
  · intro st rel name node rest childRel hexc ih e hok
    rw [buildChildren.eq_def] at hok
    simp only [show childRel = joinPath rel name from rfl] at hexc
    simp only [hexc, if_true] at hok
    exact ih e hok
  · intro st rel name node rest childRel hexc st1 te hentry st2 tes hch _ ih2 e hok
    rw [buildChildren.eq_def] at hok
    simp only [show childRel = joinPath rel name from rfl] at hexc hentry
    simp only [eq_false_of_ne_true hexc, Bool.false_eq_true, if_false,
      hentry, hch] at hok
    exact Except.noConfusion hok
  · intro st rel name node rest childRel hexc st1 te hentry e hch _ ih2 e2 hok
    rw [buildChildren.eq_def] at hok
    simp only [show childRel = joinPath rel name from rfl] at hexc hentry
    simp only [eq_false_of_ne_true hexc, Bool.false_eq_true, if_false,
      hentry, hch, Except.error.injEq] at hok
    exact hok ▸ ih2 e hch
  · intro st rel name node rest childRel hexc e hentry hkind _ e2 hok
    rw [buildChildren.eq_def] at hok
    simp only [show childRel = joinPath rel name from rfl] at hexc hentry
    simp only [eq_false_of_ne_true hexc, Bool.false_eq_true, if_false,
      hentry, if_pos hkind, Except.error.injEq] at hok
    exact hok ▸ hkind
  · intro st rel name node rest childRel hexc e hentry hkind _ ih2 e2 hok
    rw [buildChildren.eq_def] at hok
    simp only [show childRel = joinPath rel name from rfl] at hexc hentry
    simp only [eq_false_of_ne_true hexc, Bool.false_eq_true, if_false,
      hentry, if_neg hkind] at hok
    exact ih2 e2 hok
  · intro _ _ _ _ _; trivial
  · intro _ _ _ _ _; trivial
  · intro _ _ _ _ _ _ _ _; trivial
  · intro _ _ _ _ _ _ _ _ _; trivial
  · intro _ _ _ _ _ _; trivial
  · intro _ _ _ _ _ _ _ _; trivial
  · intro _ _ _ _ _ _ _ _; trivial

/-- A successful walk computes the order-free description of the tree:
the returned hash is the spec hash, and the recorded tree and file hash
keys are the starting keys plus the spec key sets. -/
theorem buildTree_sim (opts : Options) :
    ∀ (st : BuilderState) (relPath : String) (entries : List (String × FsNode)),
      ∀ st2 h2, buildTree opts st relPath entries = .ok (st2, h2) →
        h2 = specTreeHash opts relPath entries ∧
        keySet st2.trees = keySet st.trees ∪
          (specTreeHash opts relPath entries ::
            specTreeKeys opts relPath entries).toFinset ∧
        keySet st2.files = keySet st.files ∪
          (specFileKeys opts relPath entries).toFinset := by
  refine buildTree.induct opts
    (fun st rel es => ∀ st2 h2, buildTree opts st rel es = .ok (st2, h2) →
      h2 = specTreeHash opts rel es ∧
      keySet st2.trees = keySet st.trees ∪
        (specTreeHash opts rel es :: specTreeKeys opts rel es).toFinset ∧
      keySet st2.files = keySet st.files ∪ (specFileKeys opts rel es).toFinset)
    (fun st rel es => ∀ st2 tes, buildChildren opts st rel es = .ok (st2, tes) →
      tes = specChildren opts rel es ∧
      keySet st2.trees = keySet st.trees ∪ (specTreeKeys opts rel es).toFinset ∧
      keySet st2.files = keySet st.files ∪ (specFileKeys opts rel es).toFinset)
    (fun st cr n node => ∀ st2 te, buildEntry opts st cr n node = .ok (st2, te) →
      specEntryNode opts cr n node = some te ∧
      keySet st2.trees = keySet st.trees ∪ (specTreeKeysNode opts cr node).toFinset ∧
      keySet st2.files = keySet st.files ∪ (specFileKeysNode opts cr node).toFinset)
    ?_ ?_ ?_ ?_ ?_ ?_ ?_ ?_ ?_ ?_ ?_ ?_ ?_ ?_ ?_
  · intro st rel es e hch _ st2 h2 hok
    rw [buildTree.eq_def, hch] at hok
    exact Except.noConfusion hok
  · intro st rel es st1 tes hch ih st2 h2 hok
    rw [buildTree.eq_def, hch] at hok
    simp only [Except.ok.injEq, Prod.mk.injEq] at hok
    obtain ⟨hst2, hh2⟩ := hok
    obtain ⟨htes, htr, hfi⟩ := ih st1 tes hch
    subst hst2 hh2 htes
    refine ⟨(specTreeHash.eq_def opts rel es).symm, ?_, ?_⟩
    · show keySet (hInsert st1.trees _ _) = _
      rw [keySet_hInsert, htr, ← specTreeHash.eq_def, List.toFinset_cons,
        Finset.union_insert]
    · show keySet st1.files = _
      rw [hfi]
  · intro st rel st2 tes hok
    rw [buildChildren.eq_def] at hok
    simp only [Except.ok.injEq, Prod.mk.injEq] at hok
    obtain ⟨hst2, htes⟩ := hok
    subst hst2 htes
    refine ⟨by simp [specChildren], by simp [specTreeKeys], by simp [specFileKeys]⟩
  · intro st rel name node rest childRel hexc ih st2 tes hok
    rw [buildChildren.eq_def] at hok
    simp only [show childRel = joinPath rel name from rfl] at hexc
    simp only [hexc, if_true] at hok
    obtain ⟨htes, htr, hfi⟩ := ih st2 tes hok
    have hnone : specEntry opts rel (name, node) = none := by
      rw [specEntry]
      simp only [hexc, if_true]
    refine ⟨?_, ?_, ?_⟩
    · rw [specChildren, hnone]
      exact htes
    · rw [specTreeKeys]
      simp only [hexc, if_true, List.nil_append]
      exact htr
    · rw [specFileKeys]
      simp only [hexc, if_true, List.nil_append]
      exact hfi
  · intro st rel name node rest childRel hexc st1 te hentry st2 tes hch ih3 ih2
    intro stF tesF hok
    rw [buildChildren.eq_def] at hok
    simp only [show childRel = joinPath rel name from rfl] at hexc hentry ih3
    simp only [eq_false_of_ne_true hexc, Bool.false_eq_true, if_false,
      hentry, hch, Except.ok.injEq, Prod.mk.injEq] at hok
    obtain ⟨hst, htesF⟩ := hok
    subst hst htesF
    obtain ⟨hte, htr3, hfi3⟩ := ih3 st1 te hentry
    obtain ⟨htes, htr2, hfi2⟩ := ih2 st2 tes hch
    have hsome : specEntry opts rel (name, node) = some te := by
      rw [specEntry]
      simp only [eq_false_of_ne_true hexc, Bool.false_eq_true, if_false]
      exact hte
    refine ⟨?_, ?_, ?_⟩
    · rw [specChildren, hsome, htes]
    · rw [specTreeKeys]
      simp only [eq_false_of_ne_true hexc, Bool.false_eq_true, if_false]
      rw [List.toFinset_append, htr2, htr3, Finset.union_assoc]
    · rw [specFileKeys]
      simp only [eq_false_of_ne_true hexc, Bool.false_eq_true, if_false]
      rw [List.toFinset_append, hfi2, hfi3, Finset.union_assoc]
  · intro st rel name node rest childRel hexc st1 te hentry e hch _ _ stF tesF hok
    rw [buildChildren.eq_def] at hok
    simp only [show childRel = joinPath rel name from rfl] at hexc hentry
    simp only [eq_false_of_ne_true hexc, Bool.false_eq_true, if_false,
      hentry, hch] at hok
    exact Except.noConfusion hok
  · intro st rel name node rest childRel hexc e hentry hkind _ stF tesF hok
    rw [buildChildren.eq_def] at hok
    simp only [show childRel = joinPath rel name from rfl] at hexc hentry
    simp only [eq_false_of_ne_true hexc, Bool.false_eq_true, if_false,
      hentry, if_pos hkind] at hok
    exact Except.noConfusion hok
  · intro st rel name node rest childRel hexc e hentry hkind _ ih2 stF tesF hok
    rw [buildChildren.eq_def] at hok
    simp only [show childRel = joinPath rel name from rfl] at hexc hentry
    simp only [eq_false_of_ne_true hexc, Bool.false_eq_true, if_false,
      hentry, if_neg hkind] at hok
    obtain ⟨htes, htr, hfi⟩ := ih2 stF tesF hok
    have hnode : specEntryNode opts (joinPath rel name) name node = none ∧
        specTreeKeysNode opts (joinPath rel name) node = [] ∧
        specFileKeysNode opts (joinPath rel name) node = [] := by
      cases node with
      | errEntry k d =>
        exact ⟨by rw [specEntryNode], by simp [specTreeKeysNode], by simp [specFileKeysNode]⟩
      | symlink mode target =>
        rw [buildEntry.eq_def] at hentry
        exact Except.noConfusion hentry
      | dir mode es =>
        rw [buildEntry.eq_def] at hentry
        cases hbt : buildTree opts st (joinPath rel name) es with
        | error e2 =>
          simp only [hbt, Except.error.injEq] at hentry
          exact absurd (hentry ▸ buildTree_error_kind opts st (joinPath rel name) es e2 hbt) hkind
        | ok r =>
          simp only [hbt] at hentry
          exact Except.noConfusion hentry
      | file mode content =>
        rw [buildEntry.eq_def] at hentry
        by_cases hc1 : opts.max_files ≤ st.file_count
        · simp only [if_pos hc1, Except.error.injEq] at hentry
          exact absurd (hentry ▸ (Or.inl rfl)) hkind
        · simp only [if_neg hc1] at hentry
          by_cases hc2 : u64AsI64 content.length > opts.max_file_size
          · refine ⟨?_, by simp [specTreeKeysNode], ?_⟩
            · rw [specEntryNode]
              simp only [if_pos hc2]
            · rw [specFileKeysNode]
              simp only [if_pos hc2]
          · simp only [if_neg hc2] at hentry
            exact Except.noConfusion hentry
    obtain ⟨hn1, hn2, hn3⟩ := hnode
    have hnone : specEntry opts rel (name, node) = none := by
      rw [specEntry]
      simp only [eq_false_of_ne_true hexc, Bool.false_eq_true, if_false]
      exact hn1
    refine ⟨?_, ?_, ?_⟩
    · rw [specChildren, hnone]
      exact htes
    · rw [specTreeKeys]
      simp only [eq_false_of_ne_true hexc, Bool.false_eq_true, if_false, hn2,
        List.nil_append]
      exact htr
    · rw [specFileKeys]
      simp only [eq_false_of_ne_true hexc, Bool.false_eq_true, if_false, hn3,
        List.nil_append]
      exact hfi
  · intro st cr n k d st2 te hok
    rw [buildEntry.eq_def] at hok
    exact Except.noConfusion hok
  · intro st cr n mode target st2 te hok
    rw [buildEntry.eq_def] at hok
    simp only [Except.ok.injEq, Prod.mk.injEq] at hok
    obtain ⟨hst2, hte⟩ := hok
    subst hst2 hte
    refine ⟨by rw [specEntryNode], ?_, ?_⟩
    · show keySet st.trees = _
      simp [specTreeKeysNode]
    · show keySet st.files = _
      simp [specFileKeysNode]
  · intro st cr n mode es e htree _ st2 te hok
    rw [buildEntry.eq_def] at hok
    simp only [htree] at hok
    exact Except.noConfusion hok
  · intro st cr n mode es st1 h htree ih1 st2 te hok
    rw [buildEntry.eq_def] at hok
    simp only [htree, Except.ok.injEq, Prod.mk.injEq] at hok
    obtain ⟨hst2, hte⟩ := hok
    subst hst2 hte
    obtain ⟨hh, htr, hfi⟩ := ih1 st1 h htree
    subst hh
    refine ⟨by rw [specEntryNode], ?_, ?_⟩
    · rw [specTreeKeysNode]
      exact htr
    · rw [specFileKeysNode]
      exact hfi
  · intro st cr n mode content hcount st2 te hok
    rw [buildEntry.eq_def] at hok
    simp only [if_pos hcount] at hok
    exact Except.noConfusion hok
  · intro st cr n mode content hcount size hsize st2 te hok
    rw [buildEntry.eq_def] at hok
    simp only [if_neg hcount, show u64AsI64 size = u64AsI64 content.length from rfl] at hok
    simp only [if_pos hsize] at hok
    exact Except.noConfusion hok
  · intro st cr n mode content hcount size hsize st2 te hok
    rw [buildEntry.eq_def] at hok
    simp only [if_neg hcount] at hok
    simp only [if_neg hsize, Except.ok.injEq, Prod.mk.injEq] at hok
    obtain ⟨hst2, hte⟩ := hok
    subst hst2 hte
    have hsize' : ¬ (u64AsI64 content.length > opts.max_file_size) := hsize
    refine ⟨?_, ?_, ?_⟩
    · rw [specEntryNode]
      simp only [if_neg hsize']
    · show keySet st.trees = _
      simp [specTreeKeysNode]
    · show keySet (hInsert st.files _ _) = _
      rw [keySet_hInsert, specFileKeysNode]
      simp only [if_neg hsize']
      rw [List.toFinset_cons, List.toFinset_nil, Finset.union_insert,
        Finset.union_empty]

theorem isDirNode_canon (c : FsNode) : isDirNode (canonNode c) = isDirNode c := by
  cases c <;> simp [canonNode, isDirNode]

theorem nodupList_iff (l : List (List Nat)) : nodupList l = true ↔ l.Nodup := by
  induction l with
  | nil => simp [nodupList]
  | cons x xs ih =>
    simp [nodupList, ih, List.contains, List.elem_iff, List.nodup_cons]

theorem specEntry_name (opts : Options) (rel name : String) (node : FsNode)
    (te : TreeEntry) (h : specEntry opts rel (name, node) = some te) :
    te.name = name := by
  rw [specEntry] at h
  split at h
  · exact absurd h (by simp)
  · cases node with
    | errEntry k d =>
      rw [specEntryNode] at h
      exact absurd h (by simp)
    | symlink m t =>
      rw [specEntryNode] at h
      simp only [Option.some.injEq] at h
      rw [← h]
    | dir m es =>
      rw [specEntryNode] at h
      simp only [Option.some.injEq] at h
      rw [← h]
    | file m c =>
      rw [specEntryNode] at h
      split at h
      · exact absurd h (by simp)
      · simp only [Option.some.injEq] at h
        rw [← h]

theorem specChildren_filterMap (opts : Options) (rel : String) :
    ∀ l, specChildren opts rel l = l.filterMap (specEntry opts rel) := by
  intro l
  induction l with
  | nil => simp [specChildren]
  | cons e rest ih =>
    rw [specChildren]
    cases h : specEntry opts rel e with
    | none => simp [List.filterMap_cons, h, ih]
    | some te => simp [List.filterMap_cons, h, ih]

theorem specChildren_names_sublist (opts : Options) (rel : String) :
    ∀ l, ((specChildren opts rel l).map (fun e => utf8Bytes e.name)).Sublist
      (l.map (fun p => utf8Bytes p.1)) := by
  intro l
  induction l with
  | nil => simp [specChildren]
  | cons e rest ih =>
    obtain ⟨name, node⟩ := e
    rw [specChildren]
    cases h : specEntry opts rel (name, node) with
    | none =>
      simp only [List.map_cons]
      exact ih.cons _
    | some te =>
      simp only [List.map_cons]
      rw [specEntry_name opts rel name node te h]
      exact ih.cons₂ _

theorem specChildren_perm (opts : Options) (rel : String)
    {l₁ l₂ : List (String × FsNode)} (h : l₁.Perm l₂) :
    (specChildren opts rel l₁).Perm (specChildren opts rel l₂) := by
  rw [specChildren_filterMap, specChildren_filterMap]
  exact h.filterMap _

theorem specTreeKeys_perm (opts : Options) (rel : String)
    {l₁ l₂ : List (String × FsNode)} (h : l₁.Perm l₂) :
    (specTreeKeys opts rel l₁).Perm (specTreeKeys opts rel l₂) := by
  induction h with
  | nil => exact List.Perm.refl _
  | cons x h ih =>
    obtain ⟨nm, nd⟩ := x
    rw [specTreeKeys, specTreeKeys]
    exact ih.append_left _
  | swap x y l =>
    obtain ⟨n1, d1⟩ := x
    obtain ⟨n2, d2⟩ := y
    rw [specTreeKeys, specTreeKeys, specTreeKeys, specTreeKeys]
    rw [← List.append_assoc, ← List.append_assoc]
    exact List.perm_append_comm.append_right _
  | trans h₁ h₂ ih₁ ih₂ => exact ih₁.trans ih₂

theorem specFileKeys_perm (opts : Options) (rel : String)
    {l₁ l₂ : List (String × FsNode)} (h : l₁.Perm l₂) :
    (specFileKeys opts rel l₁).Perm (specFileKeys opts rel l₂) := by
  induction h with
  | nil => exact List.Perm.refl _
  | cons x h ih =>
    obtain ⟨nm, nd⟩ := x
    rw [specFileKeys, specFileKeys]
    exact ih.append_left _
  | swap x y l =>
    obtain ⟨n1, d1⟩ := x
    obtain ⟨n2, d2⟩ := y
    rw [specFileKeys, specFileKeys, specFileKeys, specFileKeys]
    rw [← List.append_assoc, ← List.append_assoc]
    exact List.perm_append_comm.append_right _
  | trans h₁ h₂ ih₁ ih₂ => exact ih₁.trans ih₂

theorem canonList_map_names :
    ∀ l : List (String × FsNode),
      (canonList l).map (fun p => utf8Bytes p.1) = l.map (fun p => utf8Bytes p.1) := by
  intro l
  induction l with
  | nil => rw [canonList]
  | cons e rest ih =>
    obtain ⟨nm, nd⟩ := e
    rw [canonList]
    simp only [List.map_cons, ih]

theorem sortPairs_perm (l : List (String × FsNode)) : (sortPairs l).Perm l :=
  List.perm_insertionSort _ l

/-- The order-free description depends on the observed tree only through
its canonical form: recursively sorting listings with distinct names
changes neither the entries, nor the spec hash, nor the spec key sets. -/
theorem spec_canon (opts : Options) :
    ∀ (n : Nat) (es : List (String × FsNode)), sizeOf es ≤ n →
      nodupList (es.map (fun p => utf8Bytes p.1)) = true →
      nodupNamesList es = true →
      (∀ rel, specChildren opts rel (canonList es) = specChildren opts rel es) ∧
      (∀ rel, (specTreeKeys opts rel (canonList es)).toFinset =
        (specTreeKeys opts rel es).toFinset) ∧
      (∀ rel, (specFileKeys opts rel (canonList es)).toFinset =
        (specFileKeys opts rel es).toFinset) ∧
      (∀ rel, specTreeHash opts rel (sortPairs (canonList es)) =
        specTreeHash opts rel es) ∧
      (∀ rel, (specTreeKeys opts rel (sortPairs (canonList es))).toFinset =
        (specTreeKeys opts rel es).toFinset) ∧
      (∀ rel, (specFileKeys opts rel (sortPairs (canonList es))).toFinset =
        (specFileKeys opts rel es).toFinset) := by
  intro n
  induction n with
  | zero =>
    intro es hsize
    exfalso
    cases es <;> simp at hsize
  | succ n ih =>
    intro es hsize hnd hndrec
    have hmain : (∀ rel, specChildren opts rel (canonList es) = specChildren opts rel es) ∧
        (∀ rel, (specTreeKeys opts rel (canonList es)).toFinset =
          (specTreeKeys opts rel es).toFinset) ∧
        (∀ rel, (specFileKeys opts rel (canonList es)).toFinset =
          (specFileKeys opts rel es).toFinset) := by
      cases es with
      | nil => refine ⟨?_, ?_, ?_⟩ <;> intro rel <;> rw [canonList]
      | cons e rest =>
        obtain ⟨name, c⟩ := e
        have hsr : sizeOf rest ≤ n := by
          simp only [List.cons.sizeOf_spec, Prod.mk.sizeOf_spec] at hsize
          omega
        have hnd_rest : nodupList (rest.map (fun p => utf8Bytes p.1)) = true := by
          simp only [List.map_cons, nodupList, Bool.and_eq_true] at hnd
          exact hnd.2
        have hndrec_split : nodupNames c = true ∧ nodupNamesList rest = true := by
          rw [nodupNamesList] at hndrec
          simp only [Bool.and_eq_true] at hndrec
          exact hndrec
        have ihrest := ih rest hsr hnd_rest hndrec_split.2
        have hentry : ∀ rel, specEntry opts rel (name, canonNode c) =
            specEntry opts rel (name, c) := by
          intro rel
          rw [specEntry, specEntry, isDirNode_canon]
          by_cases hexc : opts.should_exclude (joinPath rel name) (isDirNode c) = true
          · rw [if_pos hexc, if_pos hexc]
          · rw [if_neg hexc, if_neg hexc]
            cases c with
            | dir m esc =>
              have hszc : sizeOf esc ≤ n := by
                simp only [List.cons.sizeOf_spec, Prod.mk.sizeOf_spec,
                  FsNode.dir.sizeOf_spec] at hsize
                omega
              have hndc := hndrec_split.1
              rw [nodupNames] at hndc
              simp only [Bool.and_eq_true] at hndc
              rw [canonNode, specEntryNode, specEntryNode,
                (ih esc hszc hndc.1 hndc.2).2.2.2.1 (joinPath rel name)]
            | file m co => simp [canonNode]
            | symlink m t => simp [canonNode]
            | errEntry k d => simp [canonNode]
        have hnodeKeys : ∀ rel,
            (specTreeKeysNode opts (joinPath rel name) (canonNode c)).toFinset =
              (specTreeKeysNode opts (joinPath rel name) c).toFinset ∧
            (specFileKeysNode opts (joinPath rel name) (canonNode c)).toFinset =
              (specFileKeysNode opts (joinPath rel name) c).toFinset := by
          intro rel
          cases c with
          | dir m esc =>
            have hszc : sizeOf esc ≤ n := by
              simp only [List.cons.sizeOf_spec, Prod.mk.sizeOf_spec,
                FsNode.dir.sizeOf_spec] at hsize
              omega
            have hndc := hndrec_split.1
            rw [nodupNames] at hndc
            simp only [Bool.and_eq_true] at hndc
            have ihc := ih esc hszc hndc.1 hndc.2
            constructor
            · rw [canonNode, specTreeKeysNode, specTreeKeysNode,
                List.toFinset_cons, List.toFinset_cons,
                ihc.2.2.2.1 (joinPath rel name), ihc.2.2.2.2.1 (joinPath rel name)]
            · rw [canonNode, specFileKeysNode, specFileKeysNode,
                ihc.2.2.2.2.2 (joinPath rel name)]
          | file m co => simp [canonNode]
          | symlink m t => simp [canonNode]
          | errEntry k d => simp [canonNode]
        refine ⟨?_, ?_, ?_⟩
        · intro rel
          rw [canonList, specChildren, specChildren, hentry rel]
          simp only [ihrest.1 rel]
        · intro rel
          rw [canonList, specTreeKeys, specTreeKeys,
            List.toFinset_append, List.toFinset_append, isDirNode_canon,
            ihrest.2.1 rel]
          by_cases hexc : opts.should_exclude (joinPath rel name) (isDirNode c) = true
          · rw [if_pos hexc, if_pos hexc]
          · rw [if_neg hexc, if_neg hexc, (hnodeKeys rel).1]
        · intro rel
          rw [canonList, specFileKeys, specFileKeys,
            List.toFinset_append, List.toFinset_append, isDirNode_canon,
            ihrest.2.2.1 rel]
          by_cases hexc : opts.should_exclude (joinPath rel name) (isDirNode c) = true
          · rw [if_pos hexc, if_pos hexc]
          · rw [if_neg hexc, if_neg hexc, (hnodeKeys rel).2]
    obtain ⟨h1, h2, h3⟩ := hmain
    have hpermMaps : ((sortPairs (canonList es)).map (fun p => utf8Bytes p.1)).Perm
        (es.map (fun p => utf8Bytes p.1)) := by
      have hp := (sortPairs_perm (canonList es)).map (fun p => utf8Bytes p.1)
      rw [canonList_map_names] at hp
      exact hp
    have h4 : ∀ rel, specTreeHash opts rel (sortPairs (canonList es)) =
        specTreeHash opts rel es := by
      intro rel
      rw [specTreeHash.eq_def, specTreeHash.eq_def]
      have hperm : (specChildren opts rel (sortPairs (canonList es))).Perm
          (specChildren opts rel es) := by
        refine (specChildren_perm opts rel (sortPairs_perm (canonList es))).trans ?_
        rw [h1 rel]
      have hnodup : ((specChildren opts rel (sortPairs (canonList es))).map
          (fun e => utf8Bytes e.name)).Nodup := by
        refine List.Sublist.nodup (specChildren_names_sublist opts rel _) ?_
        exact hpermMaps.nodup_iff.mpr (nodupList_iff _ |>.mp hnd)
      rw [sortEntries_eq_of_perm_nodup _ _ hperm hnodup]
    have h5 : ∀ rel, (specTreeKeys opts rel (sortPairs (canonList es))).toFinset =
        (specTreeKeys opts rel es).toFinset := by
      intro rel
      rw [← h2 rel]
      exact List.toFinset_eq_of_perm _ _
        (specTreeKeys_perm opts rel (sortPairs_perm (canonList es)))
    have h6 : ∀ rel, (specFileKeys opts rel (sortPairs (canonList es))).toFinset =
        (specFileKeys opts rel es).toFinset := by
      intro rel
      rw [← h3 rel]
      exact List.toFinset_eq_of_perm _ _
        (specFileKeys_perm opts rel (sortPairs_perm (canonList es)))
    exact ⟨h1, h2, h3, h4, h5, h6⟩

/-- C1: two captures of the same unchanged directory — the same observed
tree up to the order `read_dir` yields each listing, names being distinct
within every real listing — that both succeed return Snapshots with the
same root_hash, the same set of tree hashes (the keys of trees), and the
same set of file hashes (the keys of files). -/
theorem c1_capture_deterministic (t₁ t₂ : FsNode)
    (opts : List (Options → Options)) (snap₁ snap₂ : Snapshot)
    (hcanon : canonNode t₁ = canonNode t₂)
    (hnd₁ : nodupNames t₁ = true) (hnd₂ : nodupNames t₂ = true)
    (hc₁ : capture t₁ opts = .ok snap₁) (hc₂ : capture t₂ opts = .ok snap₂) :
    snap₁.root_hash = snap₂.root_hash ∧
    keySet snap₁.trees = keySet snap₂.trees ∧
    keySet snap₁.files = keySet snap₂.files := by
  cases t₁ with
  | file m c => exact Except.noConfusion hc₁
  | symlink m t => exact Except.noConfusion hc₁
  | errEntry k d => exact Except.noConfusion hc₁
  | dir m₁ es₁ =>
    cases t₂ with
    | file m c => exact Except.noConfusion hc₂
    | symlink m t => exact Except.noConfusion hc₂
    | errEntry k d => exact Except.noConfusion hc₂
    | dir m₂ es₂ =>
      rw [canonNode, canonNode] at hcanon
      simp only [FsNode.dir.injEq] at hcanon
      obtain ⟨-, hsorted⟩ := hcanon
      rw [nodupNames, Bool.and_eq_true] at hnd₁ hnd₂
      simp only [capture] at hc₁ hc₂
      generalize ho : opts.foldl (fun o f => f o) Options.defaults = o at hc₁ hc₂
      have hcan₁ := spec_canon o (sizeOf es₁) es₁ le_rfl hnd₁.1 hnd₁.2
      have hcan₂ := spec_canon o (sizeOf es₂) es₂ le_rfl hnd₂.1 hnd₂.2
      have hhash : specTreeHash o "" es₁ = specTreeHash o "" es₂ := by
        rw [← hcan₁.2.2.2.1 "", hsorted, hcan₂.2.2.2.1 ""]
      have htreeKeys : (specTreeKeys o "" es₁).toFinset =
          (specTreeKeys o "" es₂).toFinset := by
        rw [← hcan₁.2.2.2.2.1 "", hsorted, hcan₂.2.2.2.2.1 ""]
      have hfileKeys : (specFileKeys o "" es₁).toFinset =
          (specFileKeys o "" es₂).toFinset := by
        rw [← hcan₁.2.2.2.2.2 "", hsorted, hcan₂.2.2.2.2.2 ""]
      cases hbt₁ : buildTree o emptyBuilder "" es₁ with
      | error e => rw [hbt₁] at hc₁; exact Except.noConfusion hc₁
      | ok r₁ =>
        obtain ⟨st₁, hv₁⟩ := r₁
        cases hbt₂ : buildTree o emptyBuilder "" es₂ with
        | error e => rw [hbt₂] at hc₂; exact Except.noConfusion hc₂
        | ok r₂ =>
          obtain ⟨st₂, hv₂⟩ := r₂
          rw [hbt₁] at hc₁
          rw [hbt₂] at hc₂
          simp only [Except.ok.injEq] at hc₁ hc₂
          obtain ⟨hh₁, htr₁, hfi₁⟩ := buildTree_sim o emptyBuilder "" es₁ st₁ hv₁ hbt₁
          obtain ⟨hh₂, htr₂, hfi₂⟩ := buildTree_sim o emptyBuilder "" es₂ st₂ hv₂ hbt₂
          have hempty : keySet (emptyBuilder.trees) = (∅ : Finset (List Nat)) := rfl
          have hemptyf : keySet (emptyBuilder.files) = (∅ : Finset (List Nat)) := rfl
          refine ⟨?_, ?_, ?_⟩
          · rw [← hc₁, ← hc₂]
            show hv₁ = hv₂
            rw [hh₁, hh₂, hhash]
          · rw [← hc₁, ← hc₂]
            show keySet st₁.trees = keySet st₂.trees
            rw [htr₁, htr₂, hempty, Finset.empty_union, Finset.empty_union,
              List.toFinset_cons, List.toFinset_cons, hhash, htreeKeys]
          · rw [← hc₁, ← hc₂]
            show keySet st₁.files = keySet st₂.files
            rw [hfi₁, hfi₂, hemptyf, Finset.empty_union, Finset.empty_union, hfileKeys]

/-- Witness for C1: the same two-file directory listed in both orders. -/
theorem c1_capture_deterministic_witness :
    capture (.dir 0 [("b", .file 0 [7]), ("a", .file 0 [8])]) [] =
      .ok ⟨[2, 1, 1, 97, 2, 0, 3, 0, 4, 1, 5, 1, 8, 1, 1, 98, 2, 0, 3, 0, 4, 1, 5, 1, 7],
        [([2, 1, 1, 97, 2, 0, 3, 0, 4, 1, 5, 1, 8, 1, 1, 98, 2, 0, 3, 0, 4, 1, 5, 1, 7],
          [2, 1, 1, 97, 2, 0, 3, 0, 4, 1, 5, 1, 8, 1, 1, 98, 2, 0, 3, 0, 4, 1, 5, 1, 7])],
        [([7], ⟨"b", 1, [7]⟩), ([8], ⟨"a", 1, [8]⟩)], [], ⟨2, 1, 0, 2⟩⟩ ∧
    capture (.dir 0 [("a", .file 0 [8]), ("b", .file 0 [7])]) [] =
      .ok ⟨[2, 1, 1, 97, 2, 0, 3, 0, 4, 1, 5, 1, 8, 1, 1, 98, 2, 0, 3, 0, 4, 1, 5, 1, 7],
        [([2, 1, 1, 97, 2, 0, 3, 0, 4, 1, 5, 1, 8, 1, 1, 98, 2, 0, 3, 0, 4, 1, 5, 1, 7],
          [2, 1, 1, 97, 2, 0, 3, 0, 4, 1, 5, 1, 8, 1, 1, 98, 2, 0, 3, 0, 4, 1, 5, 1, 7])],
        [([8], ⟨"a", 1, [8]⟩), ([7], ⟨"b", 1, [7]⟩)], [], ⟨2, 1, 0, 2⟩⟩ ∧
    (⟨[2, 1, 1, 97, 2, 0, 3, 0, 4, 1, 5, 1, 8, 1, 1, 98, 2, 0, 3, 0, 4, 1, 5, 1, 7],
        [([2, 1, 1, 97, 2, 0, 3, 0, 4, 1, 5, 1, 8, 1, 1, 98, 2, 0, 3, 0, 4, 1, 5, 1, 7],
          [2, 1, 1, 97, 2, 0, 3, 0, 4, 1, 5, 1, 8, 1, 1, 98, 2, 0, 3, 0, 4, 1, 5, 1, 7])],
        [([7], ⟨"b", 1, [7]⟩), ([8], ⟨"a", 1, [8]⟩)], [], ⟨2, 1, 0, 2⟩⟩ : Snapshot).root_hash =
      (⟨[2, 1, 1, 97, 2, 0, 3, 0, 4, 1, 5, 1, 8, 1, 1, 98, 2, 0, 3, 0, 4, 1, 5, 1, 7],
        [([2, 1, 1, 97, 2, 0, 3, 0, 4, 1, 5, 1, 8, 1, 1, 98, 2, 0, 3, 0, 4, 1, 5, 1, 7],
          [2, 1, 1, 97, 2, 0, 3, 0, 4, 1, 5, 1, 8, 1, 1, 98, 2, 0, 3, 0, 4, 1, 5, 1, 7])],
        [([8], ⟨"a", 1, [8]⟩), ([7], ⟨"b", 1, [7]⟩)], [], ⟨2, 1, 0, 2⟩⟩ : Snapshot).root_hash := by
  have hcap₁ : capture (.dir 0 [("b", .file 0 [7]), ("a", .file 0 [8])]) [] =
      .ok ⟨[2, 1, 1, 97, 2, 0, 3, 0, 4, 1, 5, 1, 8, 1, 1, 98, 2, 0, 3, 0, 4, 1, 5, 1, 7],
        [([2, 1, 1, 97, 2, 0, 3, 0, 4, 1, 5, 1, 8, 1, 1, 98, 2, 0, 3, 0, 4, 1, 5, 1, 7],
          [2, 1, 1, 97, 2, 0, 3, 0, 4, 1, 5, 1, 8, 1, 1, 98, 2, 0, 3, 0, 4, 1, 5, 1, 7])],
        [([7], ⟨"b", 1, [7]⟩), ([8], ⟨"a", 1, [8]⟩)], [], ⟨2, 1, 0, 2⟩⟩ := by
    simp [capture, List.foldl, buildTree, buildChildren, buildEntry, sortEntries,
      List.insertionSort, List.orderedInsert, encodeTree, encodeEntry, hInsert,
      emptyBuilder, blake3Hash, Options.defaults, Options.should_exclude, joinPath,
      nameLe, bytesLe, utf8Bytes, charUtf8, Nat.land, u64AsI64]
  have hcap₂ : capture (.dir 0 [("a", .file 0 [8]), ("b", .file 0 [7])]) [] =
      .ok ⟨[2, 1, 1, 97, 2, 0, 3, 0, 4, 1, 5, 1, 8, 1, 1, 98, 2, 0, 3, 0, 4, 1, 5, 1, 7],
        [([2, 1, 1, 97, 2, 0, 3, 0, 4, 1, 5, 1, 8, 1, 1, 98, 2, 0, 3, 0, 4, 1, 5, 1, 7],
          [2, 1, 1, 97, 2, 0, 3, 0, 4, 1, 5, 1, 8, 1, 1, 98, 2, 0, 3, 0, 4, 1, 5, 1, 7])],
        [([8], ⟨"a", 1, [8]⟩), ([7], ⟨"b", 1, [7]⟩)], [], ⟨2, 1, 0, 2⟩⟩ := by
    simp [capture, List.foldl, buildTree, buildChildren, buildEntry, sortEntries,
      List.insertionSort, List.orderedInsert, encodeTree, encodeEntry, hInsert,
      emptyBuilder, blake3Hash, Options.defaults, Options.should_exclude, joinPath,
      nameLe, bytesLe, utf8Bytes, charUtf8, Nat.land, u64AsI64]
  refine ⟨hcap₁, hcap₂, ?_⟩
  exact (c1_capture_deterministic _ _ [] _ _
    (by simp [canonNode, canonList, sortPairs, List.insertionSort, List.orderedInsert,
      bytesLe, utf8Bytes, charUtf8])
    (by simp [nodupNames, nodupNamesList, nodupList, utf8Bytes, charUtf8, List.contains])
    (by simp [nodupNames, nodupNamesList, nodupList, utf8Bytes, charUtf8, List.contains])
    hcap₁ hcap₂).1

/-- C2: every tree blob produced by capture and stored in
`Snapshot.trees` is the encoding of an array of tree entries sorted in
ascending byte-lexicographic order of their names, for every directory
the walk encodes. -/
theorem c2_tree_blobs_sorted (root : FsNode) (opts : List (Options → Options))
    (snap : Snapshot) (hcap : capture root opts = .ok snap) :
    ∀ p ∈ snap.trees, ∃ es, p.2 = encodeTree es ∧ List.Sorted nameLeR es := by
  cases root with
  | dir m entries =>
    simp only [capture, List.foldl] at hcap
    generalize ho : opts.foldl (fun o f => f o) Options.defaults = o at hcap
    cases htree : buildTree o emptyBuilder "" entries with
    | error e => rw [htree] at hcap; exact Except.noConfusion hcap
    | ok r =>
      obtain ⟨st, h⟩ := r
      rw [htree] at hcap
      simp only [Except.ok.injEq] at hcap
      have hst : snap.trees = st.trees := by rw [← hcap]
      rw [hst]
      exact buildTree_treesSorted o emptyBuilder "" entries st h htree
        (fun p hp => by simp [emptyBuilder] at hp)
  | file m c => exact Except.noConfusion hcap
  | symlink m t => exact Except.noConfusion hcap
  | errEntry k d => exact Except.noConfusion hcap

/-- Witness for C2 on the snapshot of a two-file directory whose listing
arrives unsorted. -/
theorem c2_tree_blobs_sorted_witness :
    ∃ es, ([2, 1, 1, 97, 2, 0, 3, 0, 4, 1, 5, 1, 8, 1, 1, 98, 2, 0, 3, 0, 4, 1, 5, 1, 7]
        : List Nat) = encodeTree es ∧ List.Sorted nameLeR es := by
  have hcap : capture (.dir 0 [("b", .file 0 [7]), ("a", .file 0 [8])]) [] =
      .ok ⟨[2, 1, 1, 97, 2, 0, 3, 0, 4, 1, 5, 1, 8, 1, 1, 98, 2, 0, 3, 0, 4, 1, 5, 1, 7],
        [([2, 1, 1, 97, 2, 0, 3, 0, 4, 1, 5, 1, 8, 1, 1, 98, 2, 0, 3, 0, 4, 1, 5, 1, 7],
          [2, 1, 1, 97, 2, 0, 3, 0, 4, 1, 5, 1, 8, 1, 1, 98, 2, 0, 3, 0, 4, 1, 5, 1, 7])],
        [([7], ⟨"b", 1, [7]⟩), ([8], ⟨"a", 1, [8]⟩)], [], ⟨2, 1, 0, 2⟩⟩ := by
    simp [capture, List.foldl, buildTree, buildChildren, buildEntry, sortEntries,
      List.insertionSort, List.orderedInsert, encodeTree, encodeEntry, hInsert,
      emptyBuilder, blake3Hash, Options.defaults, Options.should_exclude, joinPath,
      nameLe, bytesLe, utf8Bytes, charUtf8, Nat.land, u64AsI64]
  exact c2_tree_blobs_sorted _ _ _ hcap
    ([2, 1, 1, 97, 2, 0, 3, 0, 4, 1, 5, 1, 8, 1, 1, 98, 2, 0, 3, 0, 4, 1, 5, 1, 7],
     [2, 1, 1, 97, 2, 0, 3, 0, 4, 1, 5, 1, 8, 1, 1, 98, 2, 0, 3, 0, 4, 1, 5, 1, 7])
    (by simp)

/-- C9: `is_connection_error` returns true for every Io error whose kind
is one of the seven connection kinds, and for Io errors of other kinds,
TLS errors, and invalid-response errors whose message case-insensitively
contains one of the eight connection substrings (e.g. "connection
refused" in any case); it returns false for every ClientClosed, Server,
Timeout, Cancelled and QueueFull error. -/
theorem c9_connection_error_classification :
    (∀ k msg, k ∈ connectionKinds → isConnectionError (.Io k msg) = true) ∧
    (∀ name msg, containsConnectionPattern msg = true →
      isConnectionError (.Io (.otherKind name) msg) = true) ∧
    (∀ msg, containsConnectionPattern msg = true →
      isConnectionError (.Tls msg) = true) ∧
    (∀ msg, containsConnectionPattern msg = true →
      isConnectionError (.InvalidResponse msg) = true) ∧
    containsConnectionPattern "Connection REFUSED by peer" = true ∧
    isConnectionError .ClientClosed = false ∧
    (∀ code detail, isConnectionError (.Server code detail) = false) ∧
    isConnectionError .Timeout = false ∧
    isConnectionError .Cancelled = false ∧
    isConnectionError .QueueFull = false := by
  refine ⟨?_, ?_, ?_, ?_, ?_, rfl, fun _ _ => rfl, rfl, rfl, rfl⟩
  · intro k msg hk
    fin_cases hk <;> rfl
  · intro name msg hmsg
    simpa [isConnectionError] using hmsg
  · intro msg hmsg
    simpa [isConnectionError] using hmsg
  · intro msg hmsg
    simpa [isConnectionError] using hmsg
  · decide

/-- Witness for C9 at concrete errors. -/
theorem c9_connection_error_classification_witness :
    isConnectionError (.Io .connectionReset "peer went away") = true ∧
    isConnectionError (.Io (.otherKind "Other") "TCP Connection Refused") = true ∧
    isConnectionError (.Tls "handshake: Broken PIPE") = true ∧
    isConnectionError (.Server 7 "connection refused") = false :=
  ⟨c9_connection_error_classification.1 .connectionReset "peer went away" (by decide),
   c9_connection_error_classification.2.1 "Other" "TCP Connection Refused" (by decide),
   c9_connection_error_classification.2.2.1 "handshake: Broken PIPE" (by decide),
   c9_connection_error_classification.2.2.2.2.2.2.1 7 "connection refused"⟩

/-- C10: a response frame of type MSG_ERROR always fails the request
with a Server error, even for malformed payloads: fewer than 8 payload
bytes decode to code 0 with detail "unknown error", and a declared
detail length exceeding the bytes present decodes to the stored code
with an empty detail; no malformed payload yields InvalidResponse (the
decoder is total, so none panics). -/
theorem c10_error_frame_decoding :
    (∀ frame : Frame, frame.msgType = MSG_ERROR →
      ∃ code detail, sendRequestHandleResponse frame = .error (.Server code detail)) ∧
    (∀ payload : Bytes, payload.length < 8 →
      parseServerError payload = .Server 0 "unknown error") ∧
    (∀ payload : Bytes, 8 ≤ payload.length →
      payload.length < 8 + leNat ((payload.drop 4).take 4) →
      parseServerError payload =
        .Server (leNat (payload.take 4)) "") := by
  refine ⟨?_, ?_, ?_⟩
  · intro frame hty
    unfold sendRequestHandleResponse
    rw [if_pos hty]
    unfold parseServerError
    by_cases h8 : frame.payload.length < 8
    · rw [if_pos h8]; exact ⟨0, "unknown error", rfl⟩
    · rw [if_neg h8]
      exact ⟨_, _, rfl⟩
  · intro payload h8
    unfold parseServerError
    rw [if_pos h8]
  · intro payload h8 hlen
    unfold parseServerError
    rw [if_neg (by omega)]
    have : ¬ (8 + leNat ((payload.drop 4).take 4) ≤ payload.length) := by omega
    simp only [this, if_false]

/-- Witness for C10 at concrete malformed error payloads. -/
theorem c10_error_frame_decoding_witness :
    parseServerError [7] = .Server 0 "unknown error" ∧
    parseServerError [1, 0, 0, 0, 5, 0, 0, 0, 65] = .Server 1 "" ∧
    sendRequestHandleResponse ⟨MSG_ERROR, 0, 1, [7]⟩ =
      .error (.Server 0 "unknown error") := by
  refine ⟨c10_error_frame_decoding.2.1 [7] (by decide), ?_, ?_⟩
  · have h := c10_error_frame_decoding.2.2 [1, 0, 0, 0, 5, 0, 0, 0, 65]
      (by decide) (by simp [leNat])
    simpa [leNat] using h
  · have h := c10_error_frame_decoding.2.1 [7] (by decide)
    simp [sendRequestHandleResponse, h]

/-- C7: `get_inherited` returns the directly mapped hash when the index
contains the turn; otherwise it walks parent links and returns the hash
of the first mapped ancestor, returning none when the walk reaches turn
id 0 or the turn store errs; in particular a child with an unmapped id
inherits the hash attached to its (non-zero) parent. -/
theorem c7_get_inherited :
    (∀ roots store t fuel h, lookupKey t roots = some h →
      getInherited roots store t fuel = some h) ∧
    (∀ roots store c p q h fuel,
      lookupKey c roots = none → lookupKey p roots = some h →
      store c = some ⟨c, p⟩ → store p = some ⟨p, q⟩ →
      c ≠ 0 → p ≠ 0 → 2 ≤ fuel →
      getInherited roots store c fuel = some h) ∧
    (∀ roots store fuel, lookupKey 0 roots = none →
      getInherited roots store 0 fuel = none) ∧
    (∀ roots store c fuel, lookupKey c roots = none → store c = none →
      getInherited roots store c fuel = none) := by
  refine ⟨?_, ?_, ?_, ?_⟩
  · intro roots store t fuel h hdir
    unfold getInherited
    rw [hdir]
  · intro roots store c p q h fuel hc hp hsc hsp hc0 hp0 hfuel
    obtain ⟨f, rfl⟩ : ∃ f, fuel = f + 2 := ⟨fuel - 2, by omega⟩
    unfold getInherited
    rw [hc]
    unfold walkParents
    rw [if_neg hc0, hsc]
    simp only [hc]
    unfold walkParents
    rw [if_neg hp0, hsp]
    simp only [hp]
  · intro roots store fuel h0
    unfold getInherited
    rw [h0]
    cases fuel with
    | zero => rfl
    | succ f => unfold walkParents; rw [if_pos rfl]
  · intro roots store c fuel hc hsc
    unfold getInherited
    rw [hc]
    cases fuel with
    | zero => rfl
    | succ f =>
      unfold walkParents
      by_cases hc0 : c = 0
      · rw [if_pos hc0]
      · rw [if_neg hc0, hsc]

theorem leNat_u64leBytes (n : Nat) : leNat (u64leBytes n) = n % 2 ^ 64 := by
  simp [leNat, u64leBytes]
  omega

theorem leNat_u32leBytes (n : Nat) : leNat (u32leBytes n) = n % 2 ^ 32 := by
  simp [leNat, u32leBytes]
  omega

theorem crc32Step_lt (c : Nat) (h : c < 2 ^ 32) : crc32Step c < 2 ^ 32 := by
  unfold crc32Step
  split
  · exact Nat.xor_lt_two_pow (by omega) (by norm_num)
  · omega

theorem crc32Step_iter_lt (k c : Nat) (h : c < 2 ^ 32) : crc32Step^[k] c < 2 ^ 32 := by
  induction k generalizing c with
  | zero => simpa using h
  | succ k ih =>
    rw [Function.iterate_succ_apply]
    exact ih _ (crc32Step_lt c h)

theorem crc32Byte_lt (c b : Nat) (h : c < 2 ^ 32) : crc32Byte c b < 2 ^ 32 :=
  crc32Step_iter_lt 8 _ (Nat.xor_lt_two_pow h (by have := Nat.mod_lt b (y := 256) (by norm_num); omega))

theorem crc32_foldl_lt (bs : Bytes) (c : Nat) (h : c < 2 ^ 32) :
    bs.foldl crc32Byte c < 2 ^ 32 := by
  induction bs generalizing c with
  | nil => simpa using h
  | cons b bs ih => exact ih _ (crc32Byte_lt c b h)

theorem crc32_lt (bs : Bytes) : crc32 bs < 2 ^ 32 :=
  Nat.xor_lt_two_pow (crc32_foldl_lt bs _ (by norm_num)) (by norm_num)

theorem u64leBytes_length (n : Nat) : (u64leBytes n).length = 8 := rfl

theorem u32leBytes_length (n : Nat) : (u32leBytes n).length = 4 := rfl

theorem encodeRecord_length (t : Nat) (h : Bytes) (hh : h.length = 32) :
    (encodeRecord t h).length = 44 := by
  simp [encodeRecord, u64leBytes, u32leBytes, hh]

/-- A `lookupKey` over the replacing map of `mapInsert`'s overwrite
branch. -/
theorem lookup_map_replace {β : Type} (m : List (Nat × β)) (k t : Nat) (v : β) :
    lookupKey t (m.map (fun p => if p.1 = k then (k, v) else p)) =
      if t = k then (if m.any (fun p => p.1 = k) then some v else none)
      else lookupKey t m := by
  have hcons : ∀ (a : Nat) (b : β) (l : List (Nat × β)),
      lookupKey t ((a, b) :: l) = if a = t then some b else lookupKey t l :=
    fun a b l => rfl
  induction m with
  | nil => by_cases h : t = k <;> simp [h, lookupKey]
  | cons p ps ih =>
    obtain ⟨a, b⟩ := p
    rw [List.map_cons]
    by_cases hpk : a = k
    · subst hpk
      have hhead : (if (a, b).1 = a then (a, v) else (a, b)) = (a, v) := by simp
      rw [hhead, hcons, hcons]
      have hany : ((a, b) :: ps).any (fun p => p.1 = a) = true := by simp
      rw [hany]
      by_cases htk : t = a
      · rw [if_pos htk.symm, if_pos htk]
        simp
      · rw [if_neg (fun h : a = t => htk h.symm), if_neg htk, ih, if_neg htk,
          if_neg (fun h : a = t => htk h.symm)]
    · have hhead : (if (a, b).1 = k then (k, v) else (a, b)) = (a, b) := by simp [hpk]
      rw [hhead, hcons, hcons]
      have hany : ((a, b) :: ps).any (fun p => p.1 = k) = ps.any (fun p => p.1 = k) := by
        simp [hpk]
      rw [hany]
      by_cases hat : a = t
      · have htk : ¬ (t = k) := fun h => hpk (hat.trans h)
        rw [if_pos hat, if_neg htk, if_pos hat]
      · rw [if_neg hat, ih]
        by_cases htk : t = k
        · rw [if_pos htk, if_pos htk]
        · rw [if_neg htk, if_neg htk, if_neg hat]

theorem lookup_append_single {β : Type} (m : List (Nat × β)) (k t : Nat) (v : β) :
    lookupKey t (m ++ [(k, v)]) =
      match lookupKey t m with
      | some w => some w
      | none => if t = k then some v else none := by
  induction m with
  | nil =>
    by_cases h : k = t
    · subst h
      simp [lookupKey]
    · simp [lookupKey, h, Ne.symm h]
  | cons p ps ih =>
    by_cases htp : p.1 = t
    · simp [lookupKey, htp]
    · simp [lookupKey, htp, ih]

theorem any_eq_lookup_isSome {β : Type} (m : List (Nat × β)) (k : Nat) :
    m.any (fun p => p.1 = k) = (lookupKey k m).isSome := by
  induction m with
  | nil => simp [lookupKey]
  | cons p ps ih =>
    by_cases hpk : p.1 = k
    · simp [lookupKey, hpk]
    · simp [lookupKey, hpk, ih]

theorem mapInsert_lookup {β : Type} (m : List (Nat × β)) (k t : Nat) (v : β) :
    lookupKey t (mapInsert m k v) = if t = k then some v else lookupKey t m := by
  unfold mapInsert
  by_cases hany : m.any (fun p => p.1 = k) = true
  · rw [if_pos hany, lookup_map_replace, hany]
    simp
  · rw [if_neg hany, lookup_append_single]
    have hnone : lookupKey k m = none := by
      have := any_eq_lookup_isSome m k
      rw [eq_false_of_ne_true hany] at this
      exact Option.not_isSome_iff_eq_none.mp (by rw [← this]; simp)
    by_cases htk : t = k
    · subst htk
      rw [hnone]
    · cases lookupKey t m <;> simp [htk]

theorem insertAll_lookup (recs : List (Nat × Bytes)) (m : List (Nat × Bytes)) (t : Nat) :
    lookupKey t (insertAll m recs) =
      match lastHash recs t with
      | some v => some v
      | none => lookupKey t m := by
  induction recs generalizing m with
  | nil => simp [insertAll, lastHash, lookupKey]
  | cons r rs ih =>
    have hstep : insertAll m (r :: rs) = insertAll (mapInsert m r.1 r.2) rs := by
      simp [insertAll]
    rw [hstep, ih]
    have hrev : lastHash (r :: rs) t =
        match lastHash rs t with
        | some w => some w
        | none => if t = r.1 then some r.2 else none := by
      unfold lastHash
      rw [List.reverse_cons, lookup_append_single]
      show _ = match lookupKey t rs.reverse with
        | some w => some w
        | none => if t = r.1 then some r.2 else none
      cases lookupKey t rs.reverse <;> rfl
    rw [hrev, mapInsert_lookup]
    cases lastHash rs t <;> by_cases htk : t = r.1 <;> simp [htk]

/-- `load` consumes one well-formed record and recurses. -/
theorem loadGo_encodeRecord (m : List (Nat × Bytes)) (t : Nat) (h : Bytes) (rest : Bytes)
    (ht : t < 2 ^ 64) (hh : h.length = 32) :
    loadGo m (encodeRecord t h ++ rest) =
      ((loadGo (mapInsert m t h) rest).1,
        encodeRecord t h ++ (loadGo (mapInsert m t h) rest).2) := by
  have hlen : (encodeRecord t h).length = 44 := encodeRecord_length t h hh
  have hassoc : encodeRecord t h ++ rest =
      u64leBytes t ++ (h ++ (u32leBytes (computeCrc t h) ++ rest)) := by
    simp [encodeRecord]
  have htake8 : (encodeRecord t h ++ rest).take 8 = u64leBytes t := by
    rw [hassoc]; exact List.take_left' (u64leBytes_length t)
  have hdrop8 : (encodeRecord t h ++ rest).drop 8 =
      h ++ (u32leBytes (computeCrc t h) ++ rest) := by
    rw [hassoc]; exact List.drop_left' (u64leBytes_length t)
  have htake32 : ((encodeRecord t h ++ rest).drop 8).take 32 = h := by
    rw [hdrop8]; exact List.take_left' hh
  have hdrop40 : (encodeRecord t h ++ rest).drop 40 =
      u32leBytes (computeCrc t h) ++ rest := by
    have : (encodeRecord t h ++ rest).drop 40 = ((encodeRecord t h ++ rest).drop 8).drop 32 := by
      rw [List.drop_drop]
    rw [this, hdrop8]
    exact List.drop_left' hh
  have htake4 : ((encodeRecord t h ++ rest).drop 40).take 4 = u32leBytes (computeCrc t h) := by
    rw [hdrop40]; exact List.take_left' (u32leBytes_length _)
  have hdrop44 : (encodeRecord t h ++ rest).drop 44 = rest := by
    have : (44 : Nat) = (encodeRecord t h).length := hlen.symm
    rw [this]; exact List.drop_left _ _
  have htake44 : (encodeRecord t h ++ rest).take 44 = encodeRecord t h := by
    exact List.take_left' hlen
  have hlentot : (encodeRecord t h ++ rest).length = 44 + rest.length := by
    simp [hlen]
  rw [loadGo]
  rw [if_neg (by omega), if_neg (by omega)]
  rw [htake8, htake32, htake4]
  rw [leNat_u64leBytes, Nat.mod_eq_of_lt ht]
  rw [leNat_u32leBytes, Nat.mod_eq_of_lt (show computeCrc t h < 2 ^ 32 from crc32_lt _)]
  rw [if_neg (by simp)]
  rw [hdrop44, htake44]

/-- `load` walks through a well-formed record sequence. -/
theorem loadGo_encodeRecords (recs : List (Nat × Bytes)) (m : List (Nat × Bytes))
    (tail : Bytes) (hwf : WfRecords recs) :
    loadGo m (encodeRecords recs ++ tail) =
      ((loadGo (insertAll m recs) tail).1,
        encodeRecords recs ++ (loadGo (insertAll m recs) tail).2) := by
  induction recs generalizing m with
  | nil => simp [encodeRecords, insertAll]
  | cons r rs ih =>
    have hwfr := hwf r (by simp)
    have hwfs : WfRecords rs := fun x hx => hwf x (by simp [hx])
    have henc : encodeRecords (r :: rs) = encodeRecord r.1 r.2 ++ encodeRecords rs := by
      simp [encodeRecords]
    rw [henc, List.append_assoc, loadGo_encodeRecord _ _ _ _ hwfr.1 hwfr.2, ih _ hwfs]
    have : insertAll (mapInsert m r.1 r.2) rs = insertAll m (r :: rs) := by
      simp [insertAll]
    rw [this, List.append_assoc]

/-- `load` stops at a bad record, truncating unless even the 8 turn-id
bytes are missing. -/
theorem loadGo_badTail (m : List (Nat × Bytes)) (tail : Bytes) (hbad : BadTail tail) :
    loadGo m tail = (m, if tail.length < 8 then tail else []) := by
  obtain ⟨-, hbad⟩ := hbad
  rw [loadGo]
  by_cases h8 : tail.length < 8
  · rw [if_pos h8, if_pos h8]
  · rw [if_neg h8, if_neg h8]
    by_cases h44 : tail.length < 44
    · rw [if_pos h44]
    · rw [if_neg h44]
      rcases hbad with h | h
      · omega
      · rw [if_pos h]

/-- C3 (amended): opening `roots.idx` stops loading at the first record
whose 44 bytes cannot be fully read or whose CRC-32 mismatches; the file
is truncated at the start of that record unless fewer than 8 bytes of it
exist, in which case the tail is left in place; every surviving record
populates the map last-write-wins, so `get t` yields the hash of the
last valid record for `t`. -/
theorem c3_roots_index_load (recs : List (Nat × Bytes)) (tail : Bytes)
    (hwf : WfRecords recs) (hbad : BadTail tail) :
    (fsRootsOpen (encodeRecords recs ++ tail)).fileBytes =
      encodeRecords recs ++ (if tail.length < 8 then tail else []) ∧
    ∀ t, (fsRootsOpen (encodeRecords recs ++ tail)).get t = lastHash recs t := by
  have hload := loadGo_encodeRecords recs [] tail hwf
  have hbadload := loadGo_badTail (insertAll [] recs) tail hbad
  constructor
  · show (fsRootsLoad (encodeRecords recs ++ tail)).2 = _
    unfold fsRootsLoad
    rw [hload, hbadload]
  · intro t
    show lookupKey t (fsRootsLoad (encodeRecords recs ++ tail)).1 = _
    unfold fsRootsLoad
    rw [hload]
    simp only [hbadload]
    rw [insertAll_lookup]
    cases hl : lastHash recs t <;> simp [lookupKey]

/-- Witness for C3 on a two-record file (same turn id twice) with a
4-byte corrupt tail. -/
theorem c3_roots_index_load_witness :
    (fsRootsOpen (encodeRecords [(1, List.replicate 32 171), (1, List.replicate 32 5)] ++
        [0, 0, 0, 0])).get 1 = some (List.replicate 32 5) ∧
    (fsRootsOpen (encodeRecords [(1, List.replicate 32 171), (1, List.replicate 32 5)] ++
        [0, 0, 0, 0])).fileBytes =
      encodeRecords [(1, List.replicate 32 171), (1, List.replicate 32 5)] ++ [0, 0, 0, 0] := by
  have h := c3_roots_index_load [(1, List.replicate 32 171), (1, List.replicate 32 5)]
    [0, 0, 0, 0] (by unfold WfRecords; decide) (by constructor <;> simp)
  refine ⟨(h.2 1).trans ?_, h.1.trans (by simp)⟩
  simp [lastHash, lookupKey]

/-- C3 counterexample to the claim as stated: a 1-byte tail cannot be
fully read, yet the file is not truncated at the start of that bad
record (the `u64` read fails with `UnexpectedEof` and the loop breaks
before any `set_len`). -/
theorem c3_short_tail_not_truncated :
    (fsRootsOpen (encodeRecord 1 (List.replicate 32 171) ++ [0])).fileBytes =
      encodeRecord 1 (List.replicate 32 171) ++ [0] ∧
    encodeRecord 1 (List.replicate 32 171) ++ [0] ≠
      encodeRecord 1 (List.replicate 32 171) := by
  constructor
  · show (fsRootsLoad _).2 = _
    unfold fsRootsLoad
    have h1 : loadGo [] (encodeRecord 1 (List.replicate 32 171) ++ [0]) =
        ((loadGo (mapInsert [] 1 (List.replicate 32 171)) [0]).1,
          encodeRecord 1 (List.replicate 32 171) ++
            (loadGo (mapInsert [] 1 (List.replicate 32 171)) [0]).2) :=
      loadGo_encodeRecord [] 1 (List.replicate 32 171) [0] (by norm_num) (by simp)
    have h2 : loadGo (mapInsert [] 1 (List.replicate 32 171)) [0] =
        (mapInsert [] 1 (List.replicate 32 171), [0]) := by
      rw [loadGo]
      norm_num
    rw [h1, h2]
  · intro h
    have := congrArg List.length h
    simp [encodeRecord_length 1 (List.replicate 32 171) (by simp)] at this

/-- C8: both resolvers split the path on `/` and drop empty and `.`
components; during the walk a missing component yields NotFound and a
non-directory intermediate yields InvalidInput "not a directory";
`get_file_at_path` returns (content, entry) for a leaf file, (target
bytes, entry) for a leaf symlink, and InvalidInput "path is a directory"
for a leaf directory; an empty path resolves to the root as a
directory. -/
theorem c8_path_resolution :
    (∀ rv bg root, resolvePath rv bg root "//a/./b/" = resolvePath rv bg root "a/b") ∧
    (∀ rv bg (root : List Nat) (path : String), splitParts path = ["a", "b"] →
      getFileAtPath rv bg root path = getFileLoop rv bg path root ["a", "b"]) ∧
    (∀ rv bg root, resolvePath rv bg root "" = .ok (root, true) ∧
      resolvePath rv bg root "/" = .ok (root, true)) ∧
    (∀ rv bg cur part rest entries, loadTreeEntries rv bg cur = .ok entries →
      entries.find? (fun e => e.name == part) = none →
      resolveLoop rv bg cur (part :: rest) =
        .error (.NotFound ("path component not found: " ++ part)) ∧
      ∀ full, getFileLoop rv bg full cur (part :: rest) =
        .error (.NotFound ("path component not found: " ++ part))) ∧
    (∀ rv bg cur part rest entries entry, loadTreeEntries rv bg cur = .ok entries →
      entries.find? (fun e => e.name == part) = some entry →
      entry.hash.length = 32 → rest ≠ [] → entry.kindEnum ≠ .Directory →
      resolveLoop rv bg cur (part :: rest) =
        .error (.InvalidInput ("not a directory: " ++ part)) ∧
      ∀ full, getFileLoop rv bg full cur (part :: rest) =
        .error (.InvalidInput ("not a directory: " ++ part))) ∧
    (∀ rv bg full cur part entries entry content,
      loadTreeEntries rv bg cur = .ok entries →
      entries.find? (fun e => e.name == part) = some entry →
      entry.hash.length = 32 → entry.kindEnum = .File →
      bg entry.hash = .ok content →
      getFileLoop rv bg full cur [part] = .ok (content, entry)) ∧
    (∀ rv bg full cur part entries entry content,
      loadTreeEntries rv bg cur = .ok entries →
      entries.find? (fun e => e.name == part) = some entry →
      entry.hash.length = 32 → entry.kindEnum = .Symlink →
      bg entry.hash = .ok content →
      getFileLoop rv bg full cur [part] = .ok (content, entry)) ∧
    (∀ rv bg full cur part entries entry,
      loadTreeEntries rv bg cur = .ok entries →
      entries.find? (fun e => e.name == part) = some entry →
      entry.hash.length = 32 → entry.kindEnum = .Directory →
      getFileLoop rv bg full cur [part] =
        .error (.InvalidInput ("path is a directory: " ++ full))) := by
  have hsplit : splitParts "//a/./b/" = ["a", "b"] := by rfl
  have hsplit2 : splitParts "a/b" = ["a", "b"] := by rfl
  refine ⟨?_, ?_, ?_, ?_, ?_, ?_, ?_, ?_⟩
  · intro rv bg root
    unfold resolvePath
    simp only [hsplit, hsplit2]
    rw [if_neg (by simp), if_neg (by simp), if_neg (by simp)]
  · intro rv bg root path hpath
    unfold getFileAtPath
    rw [hpath]
    rw [if_neg (by simp)]
  · intro rv bg root
    constructor <;> (unfold resolvePath; rw [if_pos (by simp)])
  · intro rv bg cur part rest entries hload hfind
    constructor
    · unfold resolveLoop
      simp only [hload, hfind]
    · intro full
      unfold getFileLoop
      simp only [hload, hfind]
  · intro rv bg cur part rest entries entry hload hfind hlen hrest hkind
    have hhash : entry.hashArray = .ok entry.hash := by
      unfold STreeEntry.hashArray
      rw [if_neg (by omega)]
    have hre : rest.isEmpty = false := by
      cases rest with
      | nil => exact absurd rfl hrest
      | cons a l => rfl
    constructor
    · unfold resolveLoop
      simp only [hload, hfind, hhash, hre, Bool.false_eq_true, if_false]
      rw [if_pos (by exact hkind)]
    · intro full
      unfold getFileLoop
      simp only [hload, hfind, hhash, hre, Bool.false_eq_true, if_false]
      rw [if_pos (by exact hkind)]
  · intro rv bg full cur part entries entry content hload hfind hlen hkind hget
    have hhash : entry.hashArray = .ok entry.hash := by
      unfold STreeEntry.hashArray
      rw [if_neg (by omega)]
    unfold getFileLoop
    simp only [hload, hfind, hhash, List.isEmpty_cons, List.isEmpty_nil, if_true, hkind, hget]
  · intro rv bg full cur part entries entry content hload hfind hlen hkind hget
    have hhash : entry.hashArray = .ok entry.hash := by
      unfold STreeEntry.hashArray
      rw [if_neg (by omega)]
    unfold getFileLoop
    simp only [hload, hfind, hhash, List.isEmpty_nil, if_true, hkind, hget]
  · intro rv bg full cur part entries entry hload hfind hlen hkind
    have hhash : entry.hashArray = .ok entry.hash := by
      unfold STreeEntry.hashArray
      rw [if_neg (by omega)]
    unfold getFileLoop
    simp only [hload, hfind, hhash, List.isEmpty_nil, if_true, hkind]

/-- Witness for C8 on a concrete two-level store. -/
theorem c8_path_resolution_witness :
    getFileLoop (fun _ => .ok (.arr [.map [(.int 1, .str "f"), (.int 2, .int 0),
        (.int 5, .bin (List.replicate 32 3))]]))
      (fun h => if h = List.replicate 32 3 then .ok [9, 9] else .ok [0])
      "f" [7] ["f"] =
      .ok ([9, 9], ⟨"f", 0, 0, 0, List.replicate 32 3⟩) ∧
    resolveLoop (fun _ => .ok (.arr [])) (fun _ => .ok [0]) [7] ["zzz"] =
      .error (.NotFound "path component not found: zzz") := by
  constructor
  · refine c8_path_resolution.2.2.2.2.2.1 _ _ "f" [7] "f"
      [⟨"f", 0, 0, 0, List.replicate 32 3⟩] ⟨"f", 0, 0, 0, List.replicate 32 3⟩
      [9, 9] ?_ ?_ ?_ ?_ ?_
    · unfold loadTreeEntries parseTreeEntries
      simp only
      rfl
    · rfl
    · simp
    · rfl
    · simp
  · exact (c8_path_resolution.2.2.2.1 _ _ [7] "zzz" [] [] (by rfl) (by rfl)).1

/-- An excluded entry is skipped by the child loop wherever it sits in
the listing: the walk never descends into it. -/
theorem buildChildren_skip (opts : Options) (relPath name : String) (node : FsNode)
    (pre post : List (String × FsNode))
    (hex : opts.should_exclude (joinPath relPath name) (isDirNode node) = true) :
    ∀ st, buildChildren opts st relPath (pre ++ (name, node) :: post) =
      buildChildren opts st relPath (pre ++ post) := by
  induction pre with
  | nil =>
    intro st
    rw [List.nil_append, List.nil_append]
    conv_lhs => rw [buildChildren.eq_def]
    simp only [hex, if_true]
  | cons p pre' ih =>
    intro st
    obtain ⟨n1, c1⟩ := p
    rw [List.cons_append, List.cons_append]
    unfold buildChildren
    simp only [ih]

/-- `is_double_star_dir` never fires for a pattern without the `/**`
suffix. -/
theorem is_double_star_dir_tmp (r : String) (d : Bool) :
    is_double_star_dir "*.tmp" r d = false := by
  cases d <;> rfl

/-- C6: with exclude_patterns = ["build/**"], capture drops the top-level
directory `build` and (by never descending into it) every descendant;
with exclude_patterns = ["*.tmp"], every entry whose normalised relative
path or basename matches `*.tmp` is excluded (e.g. `x.tmp` at any
depth), the walk skipping any such entry wherever it appears. -/
theorem c6_exclusion :
    (∀ rootMode buildMode sub pre post,
      capture (.dir rootMode (pre ++ ("build", .dir buildMode sub) :: post))
          [with_exclude ["build/**"]] =
        capture (.dir rootMode (pre ++ post)) [with_exclude ["build/**"]]) ∧
    (∀ rel d,
      (matchesGlob "*.tmp" (normalize_path rel) ||
        matchesGlob "*.tmp" (path_file_name (normalize_path rel))) = true →
      (with_exclude ["*.tmp"] Options.defaults).should_exclude rel d = true) ∧
    (with_exclude ["*.tmp"] Options.defaults).should_exclude "a/b/x.tmp" false = true ∧
    (∀ st relPath name node pre post,
      (with_exclude ["*.tmp"] Options.defaults).should_exclude (joinPath relPath name)
          (isDirNode node) = true →
      buildChildren (with_exclude ["*.tmp"] Options.defaults) st relPath
          (pre ++ (name, node) :: post) =
        buildChildren (with_exclude ["*.tmp"] Options.defaults) st relPath (pre ++ post)) := by
  refine ⟨?_, ?_, ?_, ?_⟩
  · intro rootMode buildMode sub pre post
    have hex : (with_exclude ["build/**"] Options.defaults).should_exclude
        (joinPath "" "build") (isDirNode (.dir buildMode sub)) = true := by rfl
    have h2 : buildTree (with_exclude ["build/**"] Options.defaults) emptyBuilder ""
        (pre ++ ("build", FsNode.dir buildMode sub) :: post) =
        buildTree (with_exclude ["build/**"] Options.defaults) emptyBuilder ""
          (pre ++ post) := by
      unfold buildTree
      rw [buildChildren_skip _ _ _ _ _ _ hex]
    simp only [capture, List.foldl]
    rw [h2]
  · intro rel d h
    unfold Options.should_exclude
    simp only [with_exclude, Options.defaults, List.any_cons, List.any_nil,
      is_double_star_dir_tmp]
    simp only [List.nil_append]
    rw [Bool.or_eq_true] at h
    rcases h with h | h <;> simp [h]
  · have h : matchesGlob "*.tmp" (path_file_name (normalize_path "a/b/x.tmp")) = true := by
      simp [normalize_path, path_file_name, splitSlashGo, matchesGlob, globTokenize,
        globTokenizeGo, pushRecursive, patternMatches, matchesFrom, seqLoop]
    unfold Options.should_exclude
    simp only [with_exclude, Options.defaults, List.any_cons, List.any_nil,
      is_double_star_dir_tmp, List.nil_append]
    simp [h]
  · intro st relPath name node pre post hex
    exact buildChildren_skip _ _ _ _ _ _ hex st

/-- Witness for C6: a build tree with a descendant file disappears
wholesale; the `*.tmp` basename rule fires at depth 2. -/
theorem c6_exclusion_witness :
    capture (.dir 0 [("build", .dir 0 [("f", .file 0 [1])]), ("k", .file 0 [2])])
        [with_exclude ["build/**"]] =
      capture (.dir 0 [("k", .file 0 [2])]) [with_exclude ["build/**"]] ∧
    (with_exclude ["*.tmp"] Options.defaults).should_exclude "d/e/x.tmp" false = true := by
  constructor
  · exact c6_exclusion.1 0 0 [("f", .file 0 [1])] [] [("k", .file 0 [2])]
  · refine c6_exclusion.2.1 "d/e/x.tmp" false ?_
    simp [normalize_path, path_file_name, splitSlashGo, matchesGlob, globTokenize,
      globTokenizeGo, pushRecursive, patternMatches, matchesFrom, seqLoop]

/-- C4: a per-entry error whose kind is neither TooManyFiles nor
CyclicLink (an unreadable file, say) causes only that entry to be
skipped — the walk, and so capture, is unchanged by removing the entry —
while an error of kind TooManyFiles or CyclicLink aborts the whole
capture with that error. -/
theorem c4_error_policy :
    (∀ opts st relPath name k d pre post,
      k ≠ FstreeErrorKind.TooManyFiles → k ≠ FstreeErrorKind.CyclicLink →
      buildChildren opts st relPath (pre ++ (name, .errEntry k d) :: post) =
        buildChildren opts st relPath (pre ++ post)) ∧
    (∀ m name k d pre post,
      k ≠ FstreeErrorKind.TooManyFiles → k ≠ FstreeErrorKind.CyclicLink →
      capture (.dir m (pre ++ (name, .errEntry k d) :: post)) [] =
        capture (.dir m (pre ++ post)) []) ∧
    (∀ opts st relPath name k d post,
      k = FstreeErrorKind.TooManyFiles ∨ k = FstreeErrorKind.CyclicLink →
      opts.should_exclude (joinPath relPath name) false = false →
      buildChildren opts st relPath ((name, .errEntry k d) :: post) =
        .error ⟨k, d⟩) ∧
    (∀ m name k d post,
      k = FstreeErrorKind.TooManyFiles ∨ k = FstreeErrorKind.CyclicLink →
      capture (.dir m ((name, .errEntry k d) :: post)) [] = .error ⟨k, d⟩) := by
  have hskip : ∀ opts st relPath name k d pre post,
      k ≠ FstreeErrorKind.TooManyFiles → k ≠ FstreeErrorKind.CyclicLink →
      buildChildren opts st relPath (pre ++ (name, FsNode.errEntry k d) :: post) =
        buildChildren opts st relPath (pre ++ post) := by
    intro opts st relPath name k d pre post hk1 hk2
    induction pre generalizing st with
    | nil =>
      rw [List.nil_append, List.nil_append]
      conv_lhs => rw [buildChildren.eq_def]
      by_cases hexc : opts.should_exclude (joinPath relPath name)
          (isDirNode (.errEntry k d)) = true
      · simp only [hexc, if_true]
      · simp only [eq_false_of_ne_true hexc, Bool.false_eq_true, if_false]
        have hentry : buildEntry opts st (joinPath relPath name) name
            (.errEntry k d) = .error ⟨k, d⟩ := by
          rw [buildEntry]
        simp only [hentry]
        rw [if_neg (fun hor : k = FstreeErrorKind.TooManyFiles ∨ k = FstreeErrorKind.CyclicLink =>
          Or.elim hor (fun h => hk1 h) (fun h => hk2 h))]
    | cons p pre' ih =>
      obtain ⟨n1, c1⟩ := p
      rw [List.cons_append, List.cons_append]
      unfold buildChildren
      simp only [fun st => ih st]
  have habort : ∀ opts st relPath name k d post,
      k = FstreeErrorKind.TooManyFiles ∨ k = FstreeErrorKind.CyclicLink →
      opts.should_exclude (joinPath relPath name) false = false →
      buildChildren opts st relPath ((name, FsNode.errEntry k d) :: post) =
        .error ⟨k, d⟩ := by
    intro opts st relPath name k d post hk hexc
    conv_lhs => rw [buildChildren.eq_def]
    have hdir : isDirNode (FsNode.errEntry k d) = false := rfl
    simp only [hdir, hexc, Bool.false_eq_true, if_false]
    have hentry : buildEntry opts st (joinPath relPath name) name
        (.errEntry k d) = .error ⟨k, d⟩ := by
      rw [buildEntry]
    simp only [hentry]
    rw [if_pos (by simpa using hk)]
  refine ⟨hskip, ?_, habort, ?_⟩
  · intro m name k d pre post hk1 hk2
    have h2 : buildTree (Options.defaults) emptyBuilder ""
        (pre ++ (name, FsNode.errEntry k d) :: post) =
        buildTree (Options.defaults) emptyBuilder "" (pre ++ post) := by
      unfold buildTree
      rw [hskip _ _ _ _ _ _ _ _ hk1 hk2]
    simp only [capture, List.foldl]
    rw [h2]
  · intro m name k d post hk
    have h2 : buildChildren (Options.defaults) emptyBuilder ""
        ((name, FsNode.errEntry k d) :: post) = .error ⟨k, d⟩ :=
      habort _ _ _ _ _ _ _ hk (by rfl)
    simp only [capture, List.foldl]
    unfold buildTree
    rw [h2]

/-- Witness for C4: an unreadable file is skipped; a cycle aborts. -/
theorem c4_error_policy_witness :
    capture (.dir 0 [("bad", .errEntry .Io "permission denied"), ("k", .file 0 [2])]) [] =
      capture (.dir 0 [("k", .file 0 [2])]) [] ∧
    capture (.dir 0 [("loop", .errEntry .CyclicLink "cyclic symbolic link detected")]) [] =
      .error ⟨.CyclicLink, "cyclic symbolic link detected"⟩ :=
  ⟨c4_error_policy.2.1 0 "bad" .Io "permission denied" [] [("k", .file 0 [2])]
      (by simp) (by simp),
   c4_error_policy.2.2.2 0 "loop" .CyclicLink "cyclic symbolic link detected" []
      (Or.inr rfl)⟩

/-- C5 (amended): a regular file whose size, reinterpreted as `i64` by
the code's `size as i64` cast, exceeds `max_file_size` makes
`build_entry` fail with FileTooLarge (detail naming the path and size),
but `build_tree` swallows that per-entry error: the walk skips the file
and capture returns a Snapshot without it rather than failing. -/
theorem c5_file_too_large :
    (∀ opts st childRel name mode content,
      st.file_count < opts.max_files →
      u64AsI64 content.length > opts.max_file_size →
      buildEntry opts st childRel name (.file mode content) =
        .error ⟨.FileTooLarge,
          "file too large: " ++ childRel ++ " (" ++ natDec content.length ++ " bytes)"⟩) ∧
    (∀ opts st relPath name mode content post,
      opts.should_exclude (joinPath relPath name) false = false →
      st.file_count < opts.max_files →
      u64AsI64 content.length > opts.max_file_size →
      buildChildren opts st relPath ((name, .file mode content) :: post) =
        buildChildren opts st relPath post) := by
  have hentry : ∀ opts st childRel name mode content,
      st.file_count < opts.max_files →
      u64AsI64 content.length > opts.max_file_size →
      buildEntry opts st childRel name (FsNode.file mode content) =
        .error ⟨.FileTooLarge,
          "file too large: " ++ childRel ++ " (" ++ natDec content.length ++ " bytes)"⟩ := by
    intro opts st childRel name mode content hcount hsize
    rw [buildEntry]
    rw [if_neg (by omega), if_pos hsize]
  refine ⟨hentry, ?_⟩
  intro opts st relPath name mode content post hexc hcount hsize
  conv_lhs => rw [buildChildren.eq_def]
  have hdir : isDirNode (FsNode.file mode content) = false := rfl
  simp only [hdir, hexc, Bool.false_eq_true, if_false]
  simp only [hentry _ _ _ _ _ _ hcount hsize]
  rw [if_neg (by decide)]

/-- Witness for C5 on a concrete oversized file. -/
theorem c5_file_too_large_witness :
    buildEntry (with_max_file_size 2 Options.defaults) emptyBuilder "big" "big"
        (.file 0 [1, 2, 3]) =
      .error ⟨.FileTooLarge, "file too large: big (3 bytes)"⟩ ∧
    buildChildren (with_max_file_size 2 Options.defaults) emptyBuilder ""
        [("big", .file 0 [1, 2, 3])] =
      buildChildren (with_max_file_size 2 Options.defaults) emptyBuilder "" [] :=
  ⟨(c5_file_too_large.1 _ _ "big" "big" 0 [1, 2, 3]
      (by simp [emptyBuilder, with_max_file_size, Options.defaults])
      (by decide)).trans (by rfl),
   c5_file_too_large.2 _ _ "" "big" 0 [1, 2, 3] [] (by rfl)
      (by simp [emptyBuilder, with_max_file_size, Options.defaults])
      (by decide)⟩

/-- C5 counterexample to the claim as stated: a directory holding one
file larger than `max_file_size` does not make capture fail — the entry
is skipped and capture returns a Snapshot without it. -/
theorem c5_capture_does_not_fail :
    capture (.dir 0 [("big", .file 0 [1, 2, 3])]) [with_max_file_size 2] =
      .ok ⟨[0], [([0], [0])], [], [], ⟨0, 1, 0, 0⟩⟩ := by
  simp only [capture, List.foldl]
  unfold buildTree
  have h1 : buildChildren (with_max_file_size 2 Options.defaults) emptyBuilder ""
      [("big", FsNode.file 0 [1, 2, 3])] =
      buildChildren (with_max_file_size 2 Options.defaults) emptyBuilder "" [] := by
    conv_lhs => rw [buildChildren.eq_def]
    have hentry : buildEntry (with_max_file_size 2 Options.defaults) emptyBuilder
        (joinPath "" "big") "big" (FsNode.file 0 [1, 2, 3]) =
        .error ⟨.FileTooLarge,
          "file too large: " ++ joinPath "" "big" ++ " (" ++ natDec 3 ++ " bytes)"⟩ := by
      rw [buildEntry]
      rw [if_neg (by simp [emptyBuilder, with_max_file_size, Options.defaults]),
        if_pos (by decide)]
      rfl
    simp only [show (with_max_file_size 2 Options.defaults).should_exclude
        (joinPath "" "big") (isDirNode (FsNode.file 0 [1, 2, 3])) = false from rfl,
      Bool.false_eq_true, if_false, hentry]
    rw [if_neg (by decide)]
  rw [h1, buildChildren]
  rfl

/-- Witness for C7 on a concrete three-turn chain. -/
theorem c7_get_inherited_witness :
    getInherited [(3, [9])]
      (fun n => if n = 5 then some ⟨5, 3⟩ else if n = 3 then some ⟨3, 1⟩ else none)
      5 2 = some [9] ∧
    getInherited [(3, [9])] (fun _ => none) 3 0 = some [9] := by
  constructor
  · exact c7_get_inherited.2.1 [(3, [9])] _ 5 3 1 [9] 2 (by simp [lookupKey])
      (by simp [lookupKey]) (by simp) (by simp) (by simp) (by simp) (by omega)
  · exact c7_get_inherited.1 [(3, [9])] _ 3 0 [9] (by simp [lookupKey])

end Cxdb
